import Mathlib

/-!
# Verification of `golf_data_core.py` (Golf_Model)

A shallow embedding of `src/Golf_GUI/integrated_golf_gui_r0/golf_data_core.py`:
the `FrameData` snapshot record, the `FrameProcessor` assembler with its raw
frame cache and filter-keyed dynamics cache, and the `GeometryUtils` mesh and
rotation routines.  Numbers stored in frames and caches are modelled by `ℚ`
(exact arithmetic in place of IEEE floats); derived quantities that take square
roots (norms, unit vectors, Rodrigues rotations) live in `ℝ`.  A float triple
that may hold NaN/Inf is modelled by a rational triple together with a
finiteness flag (`PVec`): the source only ever branches on `np.isfinite` before
using such values, so the flag is exactly the information the code consumes.

External collaborators (`calculate_inverse_dynamics`, `butter_lowpass_filter`,
`savitzky_golay_filter` from `golf_inverse_dynamics`) are parameters of the
model (`Externals`), as the spec treats them: pure functions supplied from
outside.

Python's in-place mutation of cached `FrameData` objects
(`frame_data.forces['calculated'] = ...` writes through to the object stored in
`raw_data_cache`, which is the very object handed to every caller) is modelled
by value passing in which `get_frame_data` stores the updated record back into
the cache slot and returns that same record: the cache slot plays the role of
the shared Python object, so a field of "the snapshot previously returned" is,
at any time, the corresponding field of the current cache slot.
-/

/-- A 3-component vector over one coordinate ring: the model of a length-3
`np.ndarray`.  `V3 ℚ` models stored float data, `V3 ℝ` the derived real
quantities. -/
structure V3 (R : Type) where
  x : R
  y : R
  z : R
  deriving DecidableEq

namespace V3

variable {R : Type} [CommRing R]

instance : Add (V3 R) :=
  ⟨fun a b => ⟨a.x + b.x, a.y + b.y, a.z + b.z⟩⟩

instance : Sub (V3 R) :=
  ⟨fun a b => ⟨a.x - b.x, a.y - b.y, a.z - b.z⟩⟩

instance : Neg (V3 R) :=
  ⟨fun a => ⟨-a.x, -a.y, -a.z⟩⟩

instance : Zero (V3 R) :=
  ⟨⟨0, 0, 0⟩⟩

/-- Scalar multiple. -/
def smul (c : R) (a : V3 R) : V3 R :=
  ⟨c * a.x, c * a.y, c * a.z⟩

/-- `np.dot` on 3-vectors. -/
def dot (a b : V3 R) : R :=
  a.x * b.x + a.y * b.y + a.z * b.z

/-- `np.cross` on 3-vectors. -/
def cross (a b : V3 R) : V3 R :=
  ⟨a.y * b.z - a.z * b.y, a.z * b.x - a.x * b.z, a.x * b.y - a.y * b.x⟩

/-- The squared euclidean norm, `‖a‖²`; rational/field arithmetic only. -/
def normSq (a : V3 R) : R :=
  a.x * a.x + a.y * a.y + a.z * a.z

/-- Division of a vector by a scalar (`v / n` in numpy broadcasts). -/
def sdiv {F : Type} [Field F] (a : V3 F) (c : F) : V3 F :=
  ⟨a.x / c, a.y / c, a.z / c⟩

@[simp]
theorem sub_def (a b : V3 R) : a - b = ⟨a.x - b.x, a.y - b.y, a.z - b.z⟩ :=
  rfl

@[simp]
theorem zero_def : (0 : V3 R) = ⟨0, 0, 0⟩ :=
  rfl

@[simp]
theorem neg_def (a : V3 R) : -a = ⟨-a.x, -a.y, -a.z⟩ :=
  rfl

end V3

theorem V3.ext_iff {R : Type} {a b : V3 R} : a = b ↔ a.x = b.x ∧ a.y = b.y ∧ a.z = b.z := by
  cases a
  cases b
  simp

/-- The real (square-root) norm of a real 3-vector, `np.linalg.norm`. -/
noncomputable def normR (a : V3 ℝ) : ℝ :=
  Real.sqrt a.normSq

/-- Embed a rational triple into `ℝ` (the numeric values an exact run of the
float code would produce). -/
def V3.toR (a : V3 ℚ) : V3 ℝ :=
  ⟨(a.x : ℝ), (a.y : ℝ), (a.z : ℝ)⟩

/-- A float triple as stored in the data frames: its value when finite, and a
flag recording `np.isfinite(...).all()`.  The source never looks at the numeric
content of a non-finite triple: it branches on finiteness first, so `v` is
meaningful exactly when `finite = true`. -/
structure PVec where
  v : V3 ℚ
  finite : Bool
  deriving DecidableEq

/-- `np.zeros(3)`: the all-zero, finite triple used as the degraded default. -/
def PVec.zero : PVec :=
  ⟨0, true⟩

/-- Look up a key in an association list (a Python `dict` keyed by insertion
order). -/
def lookupA {κ α : Type} [DecidableEq κ] (l : List (κ × α)) (k : κ) : Option α :=
  match l with
  | [] => none
  | (k', v) :: rest => if k' = k then some v else lookupA rest k

/-- Python `dict` assignment `d[k] = v`: replace the value of an existing key
in place, else append the new binding. -/
def updA {κ α : Type} [DecidableEq κ] (l : List (κ × α)) (k : κ) (v : α) : List (κ × α) :=
  match l with
  | [] => [(k, v)]
  | (k', v') :: rest => if k' = k then (k, v) :: rest else (k', v') :: updA rest k v

@[simp]
theorem lookupA_nil {κ α : Type} [DecidableEq κ] (k : κ) : lookupA ([] : List (κ × α)) k = none :=
  rfl

@[simp]
theorem lookupA_cons {κ α : Type} [DecidableEq κ] (p : κ × α) (k : κ) (rest : List (κ × α)) :
    lookupA (p :: rest) k = if p.1 = k then some p.2 else lookupA rest k :=
  rfl

@[simp]
theorem lookupA_updA_self {κ α : Type} [DecidableEq κ] (l : List (κ × α)) (k : κ) (v : α) :
    lookupA (updA l k v) k = some v := by
  induction l with
  | nil => simp [updA]
  | cons hd tl ih =>
      by_cases h : hd.1 = k
      · simp [updA, h]
      · simp [updA, h, ih]

theorem lookupA_updA_ne {κ α : Type} [DecidableEq κ] (l : List (κ × α)) (k k' : κ) (v : α)
    (h : k ≠ k') : lookupA (updA l k v) k' = lookupA l k' := by
  induction l with
  | nil => simp [updA, lookupA, h]
  | cons hd tl ih =>
      by_cases hh : hd.1 = k
      · simp [updA, hh, lookupA, h]
      · simp [updA, hh, lookupA, ih]

theorem updA_updA {κ α : Type} [DecidableEq κ] (l : List (κ × α)) (k : κ) (v w : α) :
    updA (updA l k v) k w = updA l k w := by
  induction l with
  | nil => simp [updA]
  | cons hd tl ih =>
      by_cases h : hd.1 = k
      · simp [updA, h]
      · simp [updA, h, ih]

/-- One loaded dataset (a pandas `DataFrame` produced by `MatlabDataLoader`):
a row count, the 3-vector-valued columns (`Butt`, `Clubhead`, ...,
`TotalHandForceGlobal`, `EquivalentMidpointCoupleGlobal`) and the scalar
columns (`Time`).  `col in df` is membership in either family; only the
vector-valued columns pass the `isinstance(val, np.ndarray)` test in
`get_column_data`. -/
structure DataFrame where
  numRows : ℕ
  vcols : List (String × List PVec)
  scols : List (String × List ℚ)
  deriving DecidableEq

/-- `FrameProcessor.get_column_data`: the value of a vector column at one row,
degrading to `np.zeros(3)` when the column is absent, the row is out of range,
or the cell is not an `np.ndarray` (scalar columns). -/
def getColumnData (df : DataFrame) (colName : String) (rowIdx : ℕ) : PVec :=
  match lookupA df.vcols colName with
  | some vals => if rowIdx < df.numRows then vals.getD rowIdx PVec.zero else PVec.zero
  | none => PVec.zero

/-- The "perpendicular to shaft in the XY plane" fallback of
`FrameProcessor._calculate_face_normal_jit`, reformulated on an unnormalized
direction representative.  `w` is any positive multiple of the unit shaft
direction `sd = w/‖w‖`; every comparison of the source is rewritten into the
equivalent rational comparison of squares:
`|sd.z| < 0.99  ↔  w.z² < 0.99²·‖w‖²` and
`‖(-sd.y, sd.x, 0)‖ > 1e-6  ↔  w.y² + w.x² > 1e-12·‖w‖²`.
The returned vector is a positive multiple of the float result; the unit
face normal of the source is its normalization (exactly `(1,0,0)` in the
final-fallback branch). -/
def faceFallbackDir (w : V3 ℚ) : V3 ℚ :=
  if w.z * w.z < (99 / 100) ^ 2 * w.normSq then
    if w.y * w.y + w.x * w.x > 1e-12 * w.normSq then ⟨-w.y, w.x, 0⟩ else ⟨1, 0, 0⟩
  else ⟨1, 0, 0⟩

/-- `FrameProcessor._calculate_face_normal_jit`, reformulated on unnormalized
representatives so that it is executable over `ℚ`.  Inputs: the current and
previous clubhead positions and a positive multiple `w` of the unit shaft
direction.  With `velocity = cur - prev`, `vd = velocity/‖velocity‖`,
`sd = w/‖w‖`, the source's guards translate to squares:
`‖velocity‖ > 1e-4                ↔ ‖velocity‖² > 1e-8`,
`‖sd × vd‖ > 1e-6                 ↔ ‖w × velocity‖² > 1e-12·‖w‖²·‖velocity‖²`,
`‖(vd × sd) × sd‖ > 1e-6          ↔ ‖(velocity × w) × w‖² > 1e-12·‖velocity‖²·‖w‖⁴`,
and `(vd × sd) × sd = ((velocity × w) × w) / (‖velocity‖·‖w‖²)` is a positive
multiple of the returned representative.  The unit face normal of the source
is the normalization of the returned vector. -/
def faceNormalDir (cur prev w : V3 ℚ) : V3 ℚ :=
  let velocity := cur - prev
  if velocity.normSq > 1e-8 then
    if (V3.cross w velocity).normSq > 1e-12 * w.normSq * velocity.normSq then
      let fntDir := V3.cross (V3.cross velocity w) w
      if fntDir.normSq > 1e-12 * velocity.normSq * (w.normSq * w.normSq) then fntDir
      else faceFallbackDir w
    else faceFallbackDir w
  else faceFallbackDir w

/-- The fallback section of `FrameProcessor._calculate_face_normal_jit`,
written literally over `ℝ` (the exact-arithmetic reading of the float code):
if the shaft is not nearly vertical, the normalized horizontal perpendicular,
else the fixed default `(1,0,0)`. -/
noncomputable def faceFallbackR (sd : V3 ℝ) : V3 ℝ :=
  if |sd.z| < 0.99 then
    let fallback : V3 ℝ := ⟨-sd.y, sd.x, 0⟩
    let fallbackMagnitude := normR fallback
    if fallbackMagnitude > 1e-6 then fallback.sdiv fallbackMagnitude
    else ⟨1, 0, 0⟩
  else ⟨1, 0, 0⟩

/-- `FrameProcessor._calculate_face_normal_jit`, written literally over `ℝ`:
velocity-based face normal with the source's three degeneracy guards, falling
through to `faceFallbackR` exactly when a guard fails. -/
noncomputable def calculateFaceNormalJitR (currentClubhead previousClubhead shaftDirection : V3 ℝ) :
    V3 ℝ :=
  let velocity := currentClubhead - previousClubhead
  let velocityMagnitude := normR velocity
  if velocityMagnitude > 1e-4 then
    let velocityDirection := velocity.sdiv velocityMagnitude
    let crossProduct := V3.cross shaftDirection velocityDirection
    if normR crossProduct > 1e-6 then
      let faceNormalTemp :=
        V3.cross (V3.cross velocityDirection shaftDirection) shaftDirection
      let faceNormalMagnitude := normR faceNormalTemp
      if faceNormalMagnitude > 1e-6 then faceNormalTemp.sdiv faceNormalMagnitude
      else faceFallbackR shaftDirection
    else faceFallbackR shaftDirection
  else faceFallbackR shaftDirection

/-- `FrameData`: one assembled snapshot.  The ten point fields, `time` and the
force/torque dictionaries are stored exactly as the dataclass stores them.
The derived shaft fields, which `__post_init__` computes deterministically
from `butt` and `clubhead` and which nothing ever overwrites afterwards, are
exposed below as functions of the record.  `face_dir` holds the face normal
up to positive scale (see `faceNormalDir`); the unit normal the dataclass
stores is its normalization, with default representative `(1,0,0)`.
`_ensure_data_types` (float32 casts) is the identity in exact arithmetic. -/
structure FrameData where
  frame_idx : ℕ
  time : ℚ
  butt : PVec
  clubhead : PVec
  midpoint : PVec
  left_wrist : PVec
  left_elbow : PVec
  left_shoulder : PVec
  right_wrist : PVec
  right_elbow : PVec
  right_shoulder : PVec
  hub : PVec
  forces : List (String × PVec)
  torques : List (String × PVec)
  face_dir : V3 ℚ
  deriving DecidableEq

/-- The finiteness test `np.isfinite([self.butt, self.clubhead]).all()` of
`FrameData._calculate_shaft_properties`. -/
def FrameData.shaftComputed (fd : FrameData) : Bool :=
  fd.butt.finite && fd.clubhead.finite

/-- `FrameData.shaft_vector` as `_calculate_shaft_properties` sets it:
`clubhead - butt` when both are finite, else the fixed fallback `(0,0,1)`. -/
def FrameData.shaft_vector (fd : FrameData) : V3 ℚ :=
  if fd.shaftComputed then fd.clubhead.v - fd.butt.v else ⟨0, 0, 1⟩

/-- `FrameData.shaft_length` as `_calculate_shaft_properties` sets it:
`‖shaft_vector‖` when both points are finite, else exactly `1.0`. -/
noncomputable def FrameData.shaft_length (fd : FrameData) : ℝ :=
  if fd.shaftComputed then normR fd.shaft_vector.toR else 1

/-- The `FrameData.shaft_direction` property: `shaft_vector / shaft_length`
when `shaft_length > 1e-6`, else `(0,0,1)`. -/
noncomputable def FrameData.shaft_direction (fd : FrameData) : V3 ℝ :=
  if fd.shaft_length > 1e-6 then fd.shaft_vector.toR.sdiv fd.shaft_length else ⟨0, 0, 1⟩

/-- The `FrameData.is_valid` property: no NaN/Inf in `butt`, `clubhead`,
`midpoint`. -/
def FrameData.is_valid (fd : FrameData) : Bool :=
  fd.butt.finite && fd.clubhead.finite && fd.midpoint.finite

/-- A rational representative of the unit shaft direction: `shaft_vector`
itself when `shaft_length > 1e-6` (the squared comparison
`‖shaft_vector‖² > 1e-12` is the exact rational equivalent), else `(0,0,1)`.
`FrameData.shaft_direction` is the normalization of this vector: in the
not-computed branch `shaft_length = 1` and `shaft_vector = (0,0,1)`, so both
branches of the property yield `(0,0,1)` there. -/
def FrameData.sdDirQ (fd : FrameData) : V3 ℚ :=
  if fd.shaftComputed ∧ fd.shaft_vector.normSq > 1e-12 then fd.shaft_vector else ⟨0, 0, 1⟩

/-- A 3×3 rational matrix (rows); only used for the identity-orientation
placeholder timeline handed to the external dynamics function. -/
structure M3Q where
  r0 : V3 ℚ
  r1 : V3 ℚ
  r2 : V3 ℚ
  deriving DecidableEq

/-- `np.identity(3)`. -/
def idM3Q : M3Q :=
  ⟨⟨1, 0, 0⟩, ⟨0, 1, 0⟩, ⟨0, 0, 1⟩⟩

/-- One dynamics-cache entry: the full-timeline `force` and `torque` arrays
returned by `calculate_inverse_dynamics` (length `num_frames` whenever the
external honours its contract). -/
structure Dynamics where
  force : List PVec
  torque : List PVec
  deriving DecidableEq

/-- The external collaborators imported from `golf_inverse_dynamics`, as
deterministic pure functions (the spec's treatment).  `calcID` models
`calculate_inverse_dynamics(position_data, orientation_data, time_vector)`;
`butter` models `butter_lowpass_filter(data, cutoff, fs)`; `savgol` models
`savitzky_golay_filter(data)`. -/
structure Externals where
  calcID : List (V3 ℚ) → List M3Q → List ℚ → Dynamics
  butter : List ℚ → ℚ → ℚ → List ℚ
  savgol : List ℚ → List ℚ

/-- `np.diff` on a 1-D array. -/
def listDiff (ts : List ℚ) : List ℚ :=
  List.zipWith (fun a b => b - a) ts ts.tail

/-- `np.mean` of a 1-D array (`ℚ` division is total, with `x / 0 = 0`; the
loader guarantees at least two frames, so the empty case is never reached on
real data). -/
def meanQ (l : List ℚ) : ℚ :=
  l.sum / l.length

/-- `FrameProcessor` state: the three data frames, the derived timeline
constants and the two caches, exactly the attributes `__init__` creates.
`config` (a `RenderConfig`) only receives cosmetic visibility writes from the
setters and never feeds back into frame assembly, so it is omitted here. -/
structure FrameProcessor where
  baseq_df : DataFrame
  ztcfq_df : DataFrame
  deltaq_df : DataFrame
  num_frames : ℕ
  time_vector : List ℚ
  raw_data_cache : List (ℕ × FrameData)
  dynamics_cache : List (String × Dynamics)
  current_filter : String
  current_frame : ℕ
  deriving DecidableEq

/-- `FrameProcessor.__init__`: `num_frames = len(baseq_df)` (the baseline
store's row count), `time_vector = baseq_df['Time']` when present else
`np.arange(num_frames) * 0.001`, empty caches, filter `'None'`. -/
def mkFrameProcessor (b z d : DataFrame) : FrameProcessor :=
  { baseq_df := b
    ztcfq_df := z
    deltaq_df := d
    num_frames := b.numRows
    time_vector :=
      match lookupA b.scols "Time" with
      | some ts => ts
      | none => (List.range b.numRows).map (fun i => (i : ℚ) * (1 / 1000))
    raw_data_cache := []
    dynamics_cache := []
    current_filter := "None"
    current_frame := 0 }

/-- `FrameProcessor.invalidate_cache`: discard the whole dynamics cache (all
filter keys). -/
def FrameProcessor.invalidate_cache (p : FrameProcessor) : FrameProcessor :=
  { p with dynamics_cache := [] }

/-- `FrameProcessor.set_filter`: no-op when the name equals the current
filter; otherwise replace the current filter and invalidate the dynamics
cache.  No validation of the name happens here or anywhere downstream. -/
def FrameProcessor.set_filter (p : FrameProcessor) (filterType : String) : FrameProcessor :=
  if filterType ≠ p.current_filter then
    FrameProcessor.invalidate_cache { p with current_filter := filterType }
  else p

/-- The position timeline `_calculate_dynamics_for_filter` extracts:
`baseq_df`'s `Clubhead` column at every index in `range(num_frames)` (numeric
content of the stored float triples). -/
def FrameProcessor.rawPositions (p : FrameProcessor) : List (V3 ℚ) :=
  (List.range p.num_frames).map (fun i => (getColumnData p.baseq_df "Clubhead" i).v)

/-- The per-component filter dispatch of `_calculate_dynamics_for_filter`'s
loop body: `Butterworth` goes to the low-pass (with `cutoff=50`),
`Savitzky-Golay` to the smoother, and any other name leaves the component
untouched (the `if/elif` chain has no else branch). -/
def filterComponent (E : Externals) (filterName : String) (fs : ℚ) (xs : List ℚ) : List ℚ :=
  if filterName = "Butterworth" then E.butter xs 50 fs
  else if filterName = "Savitzky-Golay" then E.savgol xs
  else xs

/-- The (possibly) filtered position timeline of
`_calculate_dynamics_for_filter`: when the current filter is not `'None'`,
each spatial component is passed through `filterComponent` independently with
`fs = 1/mean(diff(time_vector))` and written back into the position array;
otherwise the raw positions are used as-is.  (The write-back requires the
external filter to return a full-length array, as numpy's slice assignment
does; out-of-range reads default to `0`.) -/
def FrameProcessor.filteredPositions (E : Externals) (p : FrameProcessor) : List (V3 ℚ) :=
  if p.current_filter ≠ "None" then
    let fs := 1 / meanQ (listDiff p.time_vector)
    let xs := filterComponent E p.current_filter fs ((p.rawPositions).map V3.x)
    let ys := filterComponent E p.current_filter fs ((p.rawPositions).map V3.y)
    let zs := filterComponent E p.current_filter fs ((p.rawPositions).map V3.z)
    (List.range p.num_frames).map (fun i => ⟨xs.getD i 0, ys.getD i 0, zs.getD i 0⟩)
  else p.rawPositions

/-- The dynamics batch `_calculate_dynamics_for_filter` computes for the
current filter: the external inverse dynamics over the (possibly filtered)
positions, the placeholder identity-orientation timeline, and the time
vector. -/
def FrameProcessor.fullDynamics (E : Externals) (p : FrameProcessor) : Dynamics :=
  E.calcID (p.filteredPositions E) ((List.range p.num_frames).map (fun _ => idM3Q)) p.time_vector

/-- `FrameProcessor._calculate_dynamics_for_filter`: store the batch result
under the current filter's key. -/
def FrameProcessor.calcDynamicsForFilter (E : Externals) (p : FrameProcessor) : FrameProcessor :=
  { p with dynamics_cache := updA p.dynamics_cache p.current_filter (p.fullDynamics E) }

/-- `FrameProcessor._process_raw_frame`: build the `FrameData` for one index
from the column stores, then, when a previous sample exists (`frame_idx > 0`),
set the face normal from the consecutive clubhead positions and the frame's
shaft direction (`_calculate_face_normal`: non-finite inputs give the fixed
default `(1,0,0)`; the shaft direction is always finite). -/
def FrameProcessor.processRawFrame (p : FrameProcessor) (i : ℕ) : FrameData :=
  let fd : FrameData :=
    { frame_idx := i
      time := p.time_vector.getD i 0
      butt := getColumnData p.baseq_df "Butt" i
      clubhead := getColumnData p.baseq_df "Clubhead" i
      midpoint := getColumnData p.baseq_df "MidPoint" i
      left_wrist := getColumnData p.baseq_df "LeftWrist" i
      left_elbow := getColumnData p.baseq_df "LeftElbow" i
      left_shoulder := getColumnData p.baseq_df "LeftShoulder" i
      right_wrist := getColumnData p.baseq_df "RightWrist" i
      right_elbow := getColumnData p.baseq_df "RightElbow" i
      right_shoulder := getColumnData p.baseq_df "RightShoulder" i
      hub := getColumnData p.baseq_df "Hub" i
      forces :=
        [("BASEQ", getColumnData p.baseq_df "TotalHandForceGlobal" i),
         ("ZTCFQ", getColumnData p.ztcfq_df "TotalHandForceGlobal" i),
         ("DELTAQ", getColumnData p.deltaq_df "TotalHandForceGlobal" i)]
      torques :=
        [("BASEQ", getColumnData p.baseq_df "EquivalentMidpointCoupleGlobal" i),
         ("ZTCFQ", getColumnData p.ztcfq_df "EquivalentMidpointCoupleGlobal" i),
         ("DELTAQ", getColumnData p.deltaq_df "EquivalentMidpointCoupleGlobal" i)]
      face_dir := ⟨1, 0, 0⟩ }
  if 0 < i then
    let prevClubhead := getColumnData p.baseq_df "Clubhead" (i - 1)
    if fd.clubhead.finite && prevClubhead.finite then
      { fd with face_dir := faceNormalDir fd.clubhead.v prevClubhead.v fd.sdDirQ }
    else
      { fd with face_dir := ⟨1, 0, 0⟩ }
  else fd

/-- The bounds clamp of `get_frame_data`:
`frame_idx = max(0, min(frame_idx, num_frames - 1))` (Python `int`
arithmetic; the result is never negative). -/
def FrameProcessor.clampIdx (p : FrameProcessor) (frameIdx : ℤ) : ℕ :=
  (max 0 (min frameIdx ((p.num_frames : ℤ) - 1))).toNat

/-- The body of `FrameProcessor.get_frame_data` after the bounds clamp, on an
already-clamped index `i`: fill the raw cache on a miss, lazily compute the
current filter's dynamics batch, then overwrite the `'calculated'`
force/torque entries of the cached `FrameData` object and return it.  The
final cache write models Python's in-place mutation: the returned record and
the cache slot are one object in the source. -/
def FrameProcessor.getFrameAt (E : Externals) (p : FrameProcessor) (i : ℕ) :
    FrameData × FrameProcessor :=
  let p1 :=
    match lookupA p.raw_data_cache i with
    | some _ => p
    | none => { p with raw_data_cache := updA p.raw_data_cache i (p.processRawFrame i) }
  let frameData := (lookupA p1.raw_data_cache i).getD (p.processRawFrame i)
  let p2 :=
    if (lookupA p1.dynamics_cache p1.current_filter).isSome then p1
    else p1.calcDynamicsForFilter E
  let dynamics := (lookupA p2.dynamics_cache p2.current_filter).getD ⟨[], []⟩
  let frameData2 :=
    { frameData with
      forces := updA frameData.forces "calculated" (dynamics.force.getD i PVec.zero)
      torques := updA frameData.torques "calculated" (dynamics.torque.getD i PVec.zero) }
  (frameData2, { p2 with raw_data_cache := updA p2.raw_data_cache i frameData2 })

/-- `FrameProcessor.get_frame_data` (the filter-aware definition at lines
398-416, the one the spec's design keeps): clamp the index into
`[0, num_frames - 1]`, then run `getFrameAt` on the clamped index. -/
def FrameProcessor.get_frame_data (E : Externals) (p : FrameProcessor) (frameIdx : ℤ) :
    FrameData × FrameProcessor :=
  p.getFrameAt E (p.clampIdx frameIdx)

/-- Python `range(a, b + 1)` over machine integers. -/
def intRange (a b : ℤ) : List ℤ :=
  (List.range (b + 1 - a).toNat).map (fun k => a + (k : ℤ))

/-- `FrameProcessor.get_frame_range`: clamp `start_frame` from below to `0`
and `end_frame` from above to `num_frames - 1`, then collect
`get_frame_data(i)` for `i` in `range(start_frame, end_frame + 1)` (threading
the caches through the repeated calls, as the Python loop does). -/
def FrameProcessor.get_frame_range (E : Externals) (p : FrameProcessor)
    (startFrame endFrame : ℤ) : List FrameData × FrameProcessor :=
  let s := max 0 startFrame
  let e := min ((p.num_frames : ℤ) - 1) endFrame
  (intRange s e).foldl
    (fun acc i =>
      let r := FrameProcessor.get_frame_data E acc.2 i
      (acc.1 ++ [r.1], r.2))
    ([], p)

/-- Run a sequence of `get_frame_data` calls for their cache effects (used to
state the filter round-trip property over arbitrary interleaved frame
accesses). -/
def FrameProcessor.runFrames (E : Externals) (p : FrameProcessor) (ops : List ℤ) :
    FrameProcessor :=
  ops.foldl (fun q i => (FrameProcessor.get_frame_data E q i).2) p

/-- A 3×3 real matrix by rows (`np.ndarray` of shape (3,3)). -/
structure M3R where
  r0 : V3 ℝ
  r1 : V3 ℝ
  r2 : V3 ℝ

namespace M3R

/-- `np.eye(3)`. -/
def id3 : M3R :=
  ⟨⟨1, 0, 0⟩, ⟨0, 1, 0⟩, ⟨0, 0, 1⟩⟩

instance : Add M3R :=
  ⟨fun A B => ⟨A.r0 + B.r0, A.r1 + B.r1, A.r2 + B.r2⟩⟩

instance : Sub M3R :=
  ⟨fun A B => ⟨A.r0 - B.r0, A.r1 - B.r1, A.r2 - B.r2⟩⟩

/-- Scalar times matrix. -/
def smulM (c : ℝ) (A : M3R) : M3R :=
  ⟨V3.smul c A.r0, V3.smul c A.r1, V3.smul c A.r2⟩

/-- Matrix columns (for the product). -/
def col0 (A : M3R) : V3 ℝ :=
  ⟨A.r0.x, A.r1.x, A.r2.x⟩

def col1 (A : M3R) : V3 ℝ :=
  ⟨A.r0.y, A.r1.y, A.r2.y⟩

def col2 (A : M3R) : V3 ℝ :=
  ⟨A.r0.z, A.r1.z, A.r2.z⟩

/-- `np.dot` on 3×3 matrices. -/
def mul (A B : M3R) : M3R :=
  ⟨⟨V3.dot A.r0 B.col0, V3.dot A.r0 B.col1, V3.dot A.r0 B.col2⟩,
   ⟨V3.dot A.r1 B.col0, V3.dot A.r1 B.col1, V3.dot A.r1 B.col2⟩,
   ⟨V3.dot A.r2 B.col0, V3.dot A.r2 B.col1, V3.dot A.r2 B.col2⟩⟩

/-- Matrix–vector product. -/
def mulVec (A : M3R) (v : V3 ℝ) : V3 ℝ :=
  ⟨V3.dot A.r0 v, V3.dot A.r1 v, V3.dot A.r2 v⟩

/-- `np.outer` on 3-vectors. -/
def outer (a b : V3 ℝ) : M3R :=
  ⟨V3.smul a.x b, V3.smul a.y b, V3.smul a.z b⟩

end M3R

/-- The skew-symmetric cross-product matrix `vx` written literally in
`rotation_matrix_from_vectors`. -/
def skewM (v : V3 ℝ) : M3R :=
  ⟨⟨0, -v.z, v.y⟩, ⟨v.z, 0, -v.x⟩, ⟨-v.y, v.x, 0⟩⟩

/-- `np.allclose(a, b)` on 3-vectors with numpy's default tolerances
(`rtol = 1e-5`, `atol = 1e-8`): componentwise
`|a - b| ≤ atol + rtol * |b|`. -/
def allclose3 (a b : V3 ℝ) : Prop :=
  |a.x - b.x| ≤ 1e-8 + 1e-5 * |b.x| ∧
  |a.y - b.y| ≤ 1e-8 + 1e-5 * |b.y| ∧
  |a.z - b.z| ≤ 1e-8 + 1e-5 * |b.z|

open scoped Classical in
/-- `GeometryUtils.rotation_matrix_from_vectors` (Rodrigues), literally:
normalize both inputs; identity when already aligned (within `np.allclose`
tolerance); for antiparallel inputs a 180° rotation `2·v·vᵀ - I` about a
perpendicular axis built from world X (or world Y when `|v1.x| ≥ 0.9`);
otherwise `I + K + K²·(1-c)/s²` with `K` the cross-product matrix of
`v = v1 × v2`, `s = ‖v‖`, `c = v1·v2`. -/
noncomputable def rotation_matrix_from_vectors (vec1 vec2 : V3 ℝ) : M3R :=
  let v1 := vec1.sdiv (normR vec1)
  let v2 := vec2.sdiv (normR vec2)
  if allclose3 v1 v2 then M3R.id3
  else if allclose3 v1 (-v2) then
    let perpendicular : V3 ℝ := if |v1.x| < 0.9 then ⟨1, 0, 0⟩ else ⟨0, 1, 0⟩
    let v := V3.cross v1 perpendicular
    let v := v.sdiv (normR v)
    M3R.smulM 2 (M3R.outer v v) - M3R.id3
  else
    let v := V3.cross v1 v2
    let s := normR v
    let c := V3.dot v1 v2
    let vx := skewM v
    M3R.id3 + vx + M3R.smulM ((1 - c) / (s * s)) (M3R.mul vx vx)

/-- One ring's six vertex floats in `create_cylinder_mesh`'s vertex loop:
bottom vertex `(x·r, 0, z·r)` then top vertex `(x·r, h, z·r)` at
`angle = 2π·i/segments`. -/
noncomputable def cylinderRing (radius height : ℝ) (segments i : ℕ) : List ℝ :=
  let angle := 2 * Real.pi * (i : ℝ) / (segments : ℝ)
  let x := Real.cos angle
  let z := Real.sin angle
  [x * radius, 0, z * radius, x * radius, height, z * radius]

/-- One ring's six normal floats (radial direction, repeated for bottom and
top). -/
noncomputable def cylinderRingNormals (segments i : ℕ) : List ℝ :=
  let angle := 2 * Real.pi * (i : ℝ) / (segments : ℝ)
  let x := Real.cos angle
  let z := Real.sin angle
  [x, 0, z, x, 0, z]

/-- The flat vertex array of `GeometryUtils.create_cylinder_mesh`:
`segments + 1` paired (bottom, top) rings. -/
noncomputable def cylinderVertices (radius height : ℝ) (segments : ℕ) : List ℝ :=
  (List.range (segments + 1)).flatMap (cylinderRing radius height segments)

/-- The flat normal array of `create_cylinder_mesh`. -/
noncomputable def cylinderNormals (segments : ℕ) : List ℝ :=
  (List.range (segments + 1)).flatMap (cylinderRingNormals segments)

/-- The flat index array of `create_cylinder_mesh`: two triangles per side
face, the next ring index taken modulo `segments + 1`. -/
def cylinderIndices (segments : ℕ) : List ℕ :=
  (List.range segments).flatMap (fun i =>
    let base := i * 2
    let nextBase := ((i + 1) % (segments + 1)) * 2
    [base, base + 1, nextBase, nextBase, base + 1, nextBase + 1])

/-- One vertex triple of `create_sphere_mesh`'s UV parameterization at
latitude step `i`, longitude step `j`. -/
noncomputable def sphereVertex (radius : ℝ) (latSegments lonSegments i j : ℕ) : List ℝ :=
  let lat := Real.pi * (i : ℝ) / (latSegments : ℝ) - Real.pi / 2
  let lon := 2 * Real.pi * (j : ℝ) / (lonSegments : ℝ)
  let x := radius * Real.cos lat * Real.cos lon
  let y := radius * Real.sin lat
  let z := radius * Real.cos lat * Real.sin lon
  [x, y, z]

/-- The flat vertex array of `GeometryUtils.create_sphere_mesh`:
`(lat_segments + 1) × (lon_segments + 1)` vertices (the longitude seam is
duplicated at `0` and `2π`, not wrapped). -/
noncomputable def sphereVertices (radius : ℝ) (latSegments lonSegments : ℕ) : List ℝ :=
  (List.range (latSegments + 1)).flatMap (fun i =>
    (List.range (lonSegments + 1)).flatMap (fun j =>
      sphereVertex radius latSegments lonSegments i j))

/-- The flat index array of `create_sphere_mesh`: two triangles per quad over
the `lat_segments × lon_segments` grid. -/
def sphereIndices (latSegments lonSegments : ℕ) : List ℕ :=
  (List.range latSegments).flatMap (fun i =>
    (List.range lonSegments).flatMap (fun j =>
      let first := i * (lonSegments + 1) + j
      let second := first + lonSegments + 1
      [first, second, first + 1, second, second + 1, first + 1]))

/-- Deterministic sample externals for concrete runs: inverse dynamics that
returns the position timeline itself as force and torque, a "low-pass" that
flattens every sample to the constant `9`, and an identity smoother.  Any
deterministic choice works; this one makes the filtered and unfiltered
dynamics visibly different. -/
def sampleExternals : Externals :=
  { calcID := fun ps _ _ =>
      { force := ps.map (fun v => ⟨v, true⟩), torque := ps.map (fun v => ⟨v, true⟩) }
    butter := fun xs _ _ => xs.map (fun _ => 9)
    savgol := fun xs => xs }

/-- A two-row baseline store with moving clubhead data. -/
def sampleBase : DataFrame :=
  { numRows := 2
    vcols :=
      [("Butt", [⟨⟨0, 0, 0⟩, true⟩, ⟨⟨0, 0, 0⟩, true⟩]),
       ("Clubhead", [⟨⟨1, 2, 3⟩, true⟩, ⟨⟨4, 5, 6⟩, true⟩]),
       ("MidPoint", [⟨⟨0, 1, 0⟩, true⟩, ⟨⟨0, 1, 0⟩, true⟩]),
       ("TotalHandForceGlobal", [⟨⟨7, 0, 0⟩, true⟩, ⟨⟨8, 0, 0⟩, true⟩]),
       ("EquivalentMidpointCoupleGlobal", [⟨⟨0, 7, 0⟩, true⟩, ⟨⟨0, 8, 0⟩, true⟩])]
    scols := [("Time", [0, 1 / 1000])] }

/-- A two-row secondary store (missing columns degrade to zeros). -/
def sampleSecond : DataFrame :=
  { numRows := 2
    vcols := [("TotalHandForceGlobal", [⟨⟨1, 1, 1⟩, true⟩, ⟨⟨2, 2, 2⟩, true⟩])]
    scols := [] }

/-- The sample processor over the two-row stores. -/
def sampleProc : FrameProcessor :=
  mkFrameProcessor sampleBase sampleSecond sampleSecond

/-- `_process_raw_frame` reads only the three data frames and the time
vector, never the caches or the filter. -/
theorem processRawFrame_congr (p q : FrameProcessor) (hb : p.baseq_df = q.baseq_df)
    (hz : p.ztcfq_df = q.ztcfq_df) (hd : p.deltaq_df = q.deltaq_df)
    (ht : p.time_vector = q.time_vector) (i : ℕ) :
    p.processRawFrame i = q.processRawFrame i := by
  unfold FrameProcessor.processRawFrame
  rw [hb, hz, hd, ht]

/-- The dynamics batch depends only on the baseline frame, the frame count,
the time vector and the current filter. -/
theorem fullDynamics_congr (E : Externals) (p q : FrameProcessor)
    (hb : p.baseq_df = q.baseq_df) (hn : p.num_frames = q.num_frames)
    (ht : p.time_vector = q.time_vector) (hf : p.current_filter = q.current_filter) :
    p.fullDynamics E = q.fullDynamics E := by
  unfold FrameProcessor.fullDynamics FrameProcessor.filteredPositions FrameProcessor.rawPositions
  rw [hb, hn, ht, hf]

/-- `getFrameAt` only writes the two caches: every other processor attribute
is preserved. -/
theorem getFrameAt_fields (E : Externals) (p : FrameProcessor) (i : ℕ) :
    ((p.getFrameAt E i).2).baseq_df = p.baseq_df ∧
    ((p.getFrameAt E i).2).ztcfq_df = p.ztcfq_df ∧
    ((p.getFrameAt E i).2).deltaq_df = p.deltaq_df ∧
    ((p.getFrameAt E i).2).num_frames = p.num_frames ∧
    ((p.getFrameAt E i).2).time_vector = p.time_vector ∧
    ((p.getFrameAt E i).2).current_filter = p.current_filter ∧
    ((p.getFrameAt E i).2).current_frame = p.current_frame := by
  unfold FrameProcessor.getFrameAt FrameProcessor.calcDynamicsForFilter
  cases h : lookupA p.raw_data_cache i <;> dsimp only <;> split <;> simp

/-- `get_frame_data` preserves the same attributes. -/
theorem get_frame_data_fields (E : Externals) (p : FrameProcessor) (i : ℤ) :
    ((p.get_frame_data E i).2).baseq_df = p.baseq_df ∧
    ((p.get_frame_data E i).2).ztcfq_df = p.ztcfq_df ∧
    ((p.get_frame_data E i).2).deltaq_df = p.deltaq_df ∧
    ((p.get_frame_data E i).2).num_frames = p.num_frames ∧
    ((p.get_frame_data E i).2).time_vector = p.time_vector ∧
    ((p.get_frame_data E i).2).current_filter = p.current_filter ∧
    ((p.get_frame_data E i).2).current_frame = p.current_frame :=
  getFrameAt_fields E p (p.clampIdx i)

/-- `runFrames` preserves the same attributes. -/
theorem runFrames_fields (E : Externals) (ops : List ℤ) (p : FrameProcessor) :
    (p.runFrames E ops).baseq_df = p.baseq_df ∧
    (p.runFrames E ops).ztcfq_df = p.ztcfq_df ∧
    (p.runFrames E ops).deltaq_df = p.deltaq_df ∧
    (p.runFrames E ops).num_frames = p.num_frames ∧
    (p.runFrames E ops).time_vector = p.time_vector ∧
    (p.runFrames E ops).current_filter = p.current_filter := by
  induction ops generalizing p with
  | nil => exact ⟨rfl, rfl, rfl, rfl, rfl, rfl⟩
  | cons op rest ih =>
      have h1 := get_frame_data_fields E p op
      have h2 := ih ((p.get_frame_data E op).2)
      unfold FrameProcessor.runFrames at h2 ⊢
      simp only [List.foldl_cons]
      obtain ⟨a1, a2, a3, a4, a5, a6, -⟩ := h1
      obtain ⟨b1, b2, b3, b4, b5, b6⟩ := h2
      exact ⟨b1.trans a1, b2.trans a2, b3.trans a3, b4.trans a4, b5.trans a5, b6.trans a6⟩

/-- `set_filter` never touches the data frames, the frame count, the time
vector or the raw frame cache. -/
theorem set_filter_fields (p : FrameProcessor) (g : String) :
    (p.set_filter g).baseq_df = p.baseq_df ∧
    (p.set_filter g).ztcfq_df = p.ztcfq_df ∧
    (p.set_filter g).deltaq_df = p.deltaq_df ∧
    (p.set_filter g).num_frames = p.num_frames ∧
    (p.set_filter g).time_vector = p.time_vector ∧
    (p.set_filter g).raw_data_cache = p.raw_data_cache := by
  unfold FrameProcessor.set_filter FrameProcessor.invalidate_cache
  split <;> simp

/-- After `set_filter(g)` the current filter is `g` (it already was `g` in
the no-op branch). -/
theorem set_filter_current (p : FrameProcessor) (g : String) :
    (p.set_filter g).current_filter = g := by
  unfold FrameProcessor.set_filter FrameProcessor.invalidate_cache
  split
  · rfl
  · next h => simpa using (not_ne_iff.mp h).symm

/-- A genuine filter switch replaces the filter and discards the whole
dynamics cache. -/
theorem set_filter_switch (p : FrameProcessor) (g : String) (h : g ≠ p.current_filter) :
    p.set_filter g = { p with current_filter := g, dynamics_cache := [] } := by
  unfold FrameProcessor.set_filter FrameProcessor.invalidate_cache
  rw [if_pos h]

/-- `set_filter` with the current name is a no-op: the state is unchanged. -/
theorem set_filter_noop (p : FrameProcessor) : p.set_filter p.current_filter = p := by
  unfold FrameProcessor.set_filter
  simp

/-- The filtered position timeline always has `num_frames` entries. -/
theorem filteredPositions_length (E : Externals) (p : FrameProcessor) :
    (p.filteredPositions E).length = p.num_frames := by
  unfold FrameProcessor.filteredPositions FrameProcessor.rawPositions
  split <;> simp

/-- `get_column_data` on a row beyond a store's own row count degrades to the
zero vector. -/
theorem getColumnData_beyond_rows (df : DataFrame) (c : String) (i : ℕ)
    (h : df.numRows ≤ i) : getColumnData df c i = PVec.zero := by
  unfold getColumnData
  cases lookupA df.vcols c <;> simp [Nat.not_lt.mpr h]

/-- When the current filter is neither `'None'`, `'Butterworth'` nor
`'Savitzky-Golay'`, no component is ever filtered and the "filtered"
positions are exactly the raw positions. -/
theorem filteredPositions_unknown_name (E : Externals) (p : FrameProcessor)
    (h0 : p.current_filter ≠ "None") (hb : p.current_filter ≠ "Butterworth")
    (hs : p.current_filter ≠ "Savitzky-Golay") :
    p.filteredPositions E = p.rawPositions := by
  unfold FrameProcessor.filteredPositions filterComponent
  rw [if_pos h0]
  simp only [if_neg hb, if_neg hs]
  have hlen : p.rawPositions.length = p.num_frames := by
    simp [FrameProcessor.rawPositions]
  apply List.ext_getElem
  · simp [hlen]
  · intro i h1 h2
    have hi : i < p.num_frames := by simpa using h1
    simp only [List.getElem_map, List.getElem_range]
    rw [List.getD_eq_getElem _ _ (by simpa [hlen] using hi),
        List.getD_eq_getElem _ _ (by simpa [hlen] using hi),
        List.getD_eq_getElem _ _ (by simpa [hlen] using hi)]
    simp only [List.getElem_map]

/-- A bare three-row store and a bare two-row store (only row counts matter
for the timeline-length question; absent columns degrade to zeros). -/
def rowsThreeFrame : DataFrame :=
  ⟨3, [], []⟩

def rowsTwoFrame : DataFrame :=
  ⟨2, [], []⟩

/-- C3, counterexample: with stores of 3, 2 and 2 rows the assembler's
timeline length is 3 (the baseline store's row count), not the minimum 2
claimed by the spec. -/
theorem C3_counterexample_not_min :
    (mkFrameProcessor rowsThreeFrame rowsTwoFrame rowsTwoFrame).num_frames = 3 ∧
    min (min rowsThreeFrame.numRows rowsTwoFrame.numRows) rowsTwoFrame.numRows = 2 ∧
    (mkFrameProcessor rowsThreeFrame rowsTwoFrame rowsTwoFrame).num_frames ≠
      min (min rowsThreeFrame.numRows rowsTwoFrame.numRows) rowsTwoFrame.numRows := by
  refine ⟨rfl, rfl, ?_⟩
  decide

/-- C3 (amended): the assembler's usable timeline length — the frame count
indices are clamped against and the length of the position timeline handed to
the dynamics computation — equals the BASELINE store's row count
(`num_frames = len(baseq_df)`), regardless of the other two stores' row
counts; rows of a shorter secondary store degrade to zero vectors instead of
shortening the timeline. -/
theorem C3_timeline_is_baseline_rowcount :
    (∀ b z d : DataFrame, (mkFrameProcessor b z d).num_frames = b.numRows) ∧
    (∀ b z d : DataFrame, (mkFrameProcessor b z d).rawPositions.length = b.numRows) ∧
    (∀ (E : Externals) (b z d : DataFrame),
      ((mkFrameProcessor b z d).filteredPositions E).length = b.numRows) ∧
    (∀ (df : DataFrame) (c : String) (i : ℕ), df.numRows ≤ i → getColumnData df c i = PVec.zero) := by
  refine ⟨fun b z d => rfl, fun b z d => ?_, fun E b z d => ?_, getColumnData_beyond_rows⟩
  · simp [FrameProcessor.rawPositions, mkFrameProcessor]
  · rw [filteredPositions_length]
    rfl

/-- C3, witness of the amended claim at concrete stores. -/
theorem C3_witness :
    (mkFrameProcessor rowsThreeFrame rowsTwoFrame rowsTwoFrame).num_frames =
      rowsThreeFrame.numRows ∧
    (rowsTwoFrame.numRows ≤ 5 ∧ getColumnData rowsTwoFrame "Clubhead" 5 = PVec.zero) :=
  ⟨C3_timeline_is_baseline_rowcount.1 rowsThreeFrame rowsTwoFrame rowsTwoFrame,
   by decide, C3_timeline_is_baseline_rowcount.2.2.2 rowsTwoFrame "Clubhead" 5 (by decide)⟩

/-- C2, counterexample: `set_filter` accepts the unknown name `'Lowpass'`
and replaces the current filter with it, instead of rejecting it and leaving
the filter unchanged. -/
theorem C2_counterexample_unknown_accepted :
    (sampleProc.set_filter "Lowpass").current_filter = "Lowpass" ∧
    sampleProc.current_filter = "None" ∧
    (sampleProc.set_filter "Lowpass").current_filter ≠ sampleProc.current_filter := by
  refine ⟨?_, rfl, ?_⟩ <;> decide

/-- C2 (amended): a filter name outside the known set (`'None'`, the
Butterworth low-pass, the Savitzky-Golay smoother) is NOT rejected:
`set_filter` installs it as the current filter, and the dynamics then
computed under it apply no filtering at all — the position timeline handed to
the inverse dynamics is exactly the raw (unfiltered) one. -/
theorem C2_unknown_filter_silently_unfiltered (E : Externals) (p : FrameProcessor)
    (name : String) (h1 : name ≠ "None") (h2 : name ≠ "Butterworth")
    (h3 : name ≠ "Savitzky-Golay") :
    (p.set_filter name).current_filter = name ∧
    (p.set_filter name).filteredPositions E = (p.set_filter name).rawPositions ∧
    (p.set_filter name).fullDynamics E =
      E.calcID (p.set_filter name).rawPositions
        ((List.range (p.set_filter name).num_frames).map (fun _ => idM3Q))
        (p.set_filter name).time_vector := by
  have hc := set_filter_current p name
  have hfp : (p.set_filter name).filteredPositions E = (p.set_filter name).rawPositions :=
    filteredPositions_unknown_name E _ (by rw [hc]; exact h1) (by rw [hc]; exact h2)
      (by rw [hc]; exact h3)
  refine ⟨hc, hfp, ?_⟩
  unfold FrameProcessor.fullDynamics
  rw [hfp]

/-- C2, witness of the amended claim: the unknown name `'Lowpass'` at the
sample processor. -/
theorem C2_witness :
    (sampleProc.set_filter "Lowpass").current_filter = "Lowpass" ∧
    (sampleProc.set_filter "Lowpass").filteredPositions sampleExternals =
      (sampleProc.set_filter "Lowpass").rawPositions ∧
    (sampleProc.set_filter "Lowpass").fullDynamics sampleExternals =
      sampleExternals.calcID (sampleProc.set_filter "Lowpass").rawPositions
        ((List.range (sampleProc.set_filter "Lowpass").num_frames).map (fun _ => idM3Q))
        (sampleProc.set_filter "Lowpass").time_vector :=
  C2_unknown_filter_silently_unfiltered sampleExternals sampleProc "Lowpass"
    (by decide) (by decide) (by decide)

/-- The raw-frame builder always yields a snapshot whose index, `butt` and
`clubhead` come straight from the column stores (whichever face-normal branch
runs). -/
theorem processRawFrame_proj (p : FrameProcessor) (i : ℕ) :
    (p.processRawFrame i).frame_idx = i ∧
    (p.processRawFrame i).butt = getColumnData p.baseq_df "Butt" i ∧
    (p.processRawFrame i).clubhead = getColumnData p.baseq_df "Clubhead" i := by
  unfold FrameProcessor.processRawFrame
  dsimp only
  split
  · split <;> exact ⟨rfl, rfl, rfl⟩
  · exact ⟨rfl, rfl, rfl⟩

/-- C10: when `butt` or `clubhead` carries a non-finite component at
construction, the shaft fields are not computed from the points:
`shaft_vector = (0,0,1)`, `shaft_length = 1.0` exactly, hence
`shaft_direction = (0,0,1)`; and the snapshot is still produced (with the
requested index) rather than an error being raised — the builder is total. -/
theorem C10_nonfinite_points_shaft_fallback (p : FrameProcessor) (i : ℕ)
    (h : ((getColumnData p.baseq_df "Butt" i).finite &&
          (getColumnData p.baseq_df "Clubhead" i).finite) = false) :
    (p.processRawFrame i).frame_idx = i ∧
    (p.processRawFrame i).shaft_vector = ⟨0, 0, 1⟩ ∧
    (p.processRawFrame i).shaft_length = 1 ∧
    (p.processRawFrame i).shaft_direction = ⟨0, 0, 1⟩ := by
  obtain ⟨hidx, hbutt, hch⟩ := processRawFrame_proj p i
  have hsc : (p.processRawFrame i).shaftComputed = false := by
    unfold FrameData.shaftComputed
    rw [hbutt, hch]
    exact h
  have hv : (p.processRawFrame i).shaft_vector = ⟨0, 0, 1⟩ := by
    unfold FrameData.shaft_vector
    rw [hsc]
    simp
  have hl : (p.processRawFrame i).shaft_length = 1 := by
    unfold FrameData.shaft_length
    rw [hsc]
    simp
  refine ⟨hidx, hv, hl, ?_⟩
  unfold FrameData.shaft_direction
  rw [hl, hv, if_pos (by norm_num : (1 : ℝ) > 1e-6)]
  simp [V3.toR, V3.sdiv]

/-- A store whose `Butt` column holds a non-finite sample at row 0. -/
def nonFiniteBase : DataFrame :=
  { numRows := 1
    vcols := [("Butt", [⟨⟨0, 0, 0⟩, false⟩]), ("Clubhead", [⟨⟨1, 1, 1⟩, true⟩])]
    scols := [] }

/-- C10, witness: the non-finite `Butt` sample at row 0 of `nonFiniteBase`. -/
theorem C10_witness :
    (((getColumnData (mkFrameProcessor nonFiniteBase rowsTwoFrame rowsTwoFrame).baseq_df
          "Butt" 0).finite &&
      (getColumnData (mkFrameProcessor nonFiniteBase rowsTwoFrame rowsTwoFrame).baseq_df
          "Clubhead" 0).finite) = false) ∧
    ((mkFrameProcessor nonFiniteBase rowsTwoFrame rowsTwoFrame).processRawFrame 0).frame_idx = 0 ∧
    ((mkFrameProcessor nonFiniteBase rowsTwoFrame rowsTwoFrame).processRawFrame 0).shaft_vector =
      ⟨0, 0, 1⟩ ∧
    ((mkFrameProcessor nonFiniteBase rowsTwoFrame rowsTwoFrame).processRawFrame 0).shaft_length =
      1 ∧
    ((mkFrameProcessor nonFiniteBase rowsTwoFrame rowsTwoFrame).processRawFrame 0).shaft_direction =
      ⟨0, 0, 1⟩ :=
  ⟨by decide,
   C10_nonfinite_points_shaft_fallback (mkFrameProcessor nonFiniteBase rowsTwoFrame rowsTwoFrame)
     0 (by decide)⟩

/-- C6: for any request, the returned snapshot's stored `shaft_length` equals
the euclidean norm of `clubhead - butt` computed from the snapshot's own
point fields — exactly, in exact arithmetic — whenever those points are
finite (when they are not, C10's fallback applies instead and the snapshot is
marked invalid). -/
theorem C6_shaft_length_is_norm (E : Externals) (p : FrameProcessor) (i : ℤ)
    (h : ((p.get_frame_data E i).1).shaftComputed = true) :
    ((p.get_frame_data E i).1).shaft_length =
      normR (((p.get_frame_data E i).1).clubhead.v - ((p.get_frame_data E i).1).butt.v).toR := by
  unfold FrameData.shaft_length FrameData.shaft_vector
  rw [h]
  simp

/-- C6, witness: frame 0 of the sample processor. -/
theorem C6_witness :
    ((sampleProc.get_frame_data sampleExternals 0).1.shaftComputed = true) ∧
    (sampleProc.get_frame_data sampleExternals 0).1.shaft_length =
      normR ((sampleProc.get_frame_data sampleExternals 0).1.clubhead.v -
        (sampleProc.get_frame_data sampleExternals 0).1.butt.v).toR :=
  ⟨by decide, C6_shaft_length_is_norm sampleExternals sampleProc 0 (by decide)⟩

/-- On a dynamics-cache miss for the current filter, `getFrameAt` computes the
full-timeline batch afresh and the returned snapshot's `'calculated'` entries
come from that fresh batch at the clamped index. -/
theorem getFrameAt_calculated_of_miss (E : Externals) (p : FrameProcessor) (i : ℕ)
    (h : lookupA p.dynamics_cache p.current_filter = none) :
    lookupA ((p.getFrameAt E i).1).forces "calculated" =
      some ((p.fullDynamics E).force.getD i PVec.zero) ∧
    lookupA ((p.getFrameAt E i).1).torques "calculated" =
      some ((p.fullDynamics E).torque.getD i PVec.zero) := by
  unfold FrameProcessor.getFrameAt FrameProcessor.calcDynamicsForFilter
  cases hr : lookupA p.raw_data_cache i with
  | some fd =>
      simp only [h, Option.isSome_none, Bool.false_eq_true, if_false, lookupA_updA_self,
        Option.getD_some, and_self]
  | none =>
      simp only [h, Option.isSome_none, Bool.false_eq_true, if_false, lookupA_updA_self,
        Option.getD_some]
      constructor <;>
        rw [fullDynamics_congr E
          { p with raw_data_cache := updA p.raw_data_cache i (p.processRawFrame i) } p
          rfl rfl rfl rfl]

/-- The filter round trip of the spec's cache test: from a freshly
constructed processor, arbitrary frame accesses, `set_filter(A)`, more
accesses, `set_filter(B)`, more accesses, and finally `set_filter(A)`
again. -/
def roundTripA (E : Externals) (b z d : DataFrame) (A B : String)
    (ops0 ops1 ops2 : List ℤ) : FrameProcessor :=
  ((((((mkFrameProcessor b z d).runFrames E ops0).set_filter A).runFrames E
    ops1).set_filter B).runFrames E ops2).set_filter A

/-- C1: the dynamics cache holds at most one filter's results.
(i) `set_filter` with the current name is a no-op; (ii) a switch replaces the
filter and discards the ENTIRE dynamics cache; (iii) in the round trip
`set_filter(A); ...; set_filter(B); ...; set_filter(A)` (with arbitrary frame
accesses interleaved) the cache is empty after the second switch to `A`, and
the `'calculated'` force/torque any subsequent `get_frame_data` returns equal
a fresh full-timeline computation under `A` alone — no reuse of the first `A`
pass. -/
theorem C1_cache_discarded_wholesale (E : Externals) :
    (∀ p : FrameProcessor, p.set_filter p.current_filter = p) ∧
    (∀ (p : FrameProcessor) (A : String), A ≠ p.current_filter →
      (p.set_filter A).current_filter = A ∧ (p.set_filter A).dynamics_cache = []) ∧
    (∀ (b z d : DataFrame) (A B : String) (ops0 ops1 ops2 : List ℤ), B ≠ A →
      (roundTripA E b z d A B ops0 ops1 ops2).dynamics_cache = [] ∧
      ∀ i : ℤ,
        lookupA ((roundTripA E b z d A B ops0 ops1 ops2).get_frame_data E i).1.forces
            "calculated" =
          some ((((mkFrameProcessor b z d).set_filter A).fullDynamics E).force.getD
            ((roundTripA E b z d A B ops0 ops1 ops2).clampIdx i) PVec.zero) ∧
        lookupA ((roundTripA E b z d A B ops0 ops1 ops2).get_frame_data E i).1.torques
            "calculated" =
          some ((((mkFrameProcessor b z d).set_filter A).fullDynamics E).torque.getD
            ((roundTripA E b z d A B ops0 ops1 ops2).clampIdx i) PVec.zero)) := by
  refine ⟨set_filter_noop, ?_, ?_⟩
  · intro p A h
    rw [set_filter_switch p A h]
    exact ⟨rfl, rfl⟩
  · intro b z d A B ops0 ops1 ops2 hBA
    set p0 := (mkFrameProcessor b z d).runFrames E ops0 with hp0
    set p1 := (p0.set_filter A).runFrames E ops1 with hp1
    set p2 := (p1.set_filter B).runFrames E ops2 with hp2
    have hrt : roundTripA E b z d A B ops0 ops1 ops2 = p2.set_filter A := rfl
    have hp2f : p2.current_filter = B := by
      rw [hp2, (runFrames_fields E ops2 (p1.set_filter B)).2.2.2.2.2, set_filter_current]
    have hAne : A ≠ p2.current_filter := by
      rw [hp2f]
      exact fun hx => hBA hx.symm
    have hsw : p2.set_filter A = { p2 with current_filter := A, dynamics_cache := [] } :=
      set_filter_switch p2 A hAne
    rw [hrt]
    constructor
    · rw [hsw]
    intro i
    have hmiss :
        lookupA (p2.set_filter A).dynamics_cache (p2.set_filter A).current_filter = none := by
      rw [hsw]
      rfl
    have hkey := getFrameAt_calculated_of_miss E (p2.set_filter A)
      ((p2.set_filter A).clampIdx i) hmiss
    have hfull : (p2.set_filter A).fullDynamics E =
        ((mkFrameProcessor b z d).set_filter A).fullDynamics E := by
      have f0 := runFrames_fields E ops0 (mkFrameProcessor b z d)
      have f1 := set_filter_fields p0 A
      have f2 := runFrames_fields E ops1 (p0.set_filter A)
      have f3 := set_filter_fields p1 B
      have f4 := runFrames_fields E ops2 (p1.set_filter B)
      have f5 := set_filter_fields p2 A
      have g1 := set_filter_fields (mkFrameProcessor b z d) A
      refine fullDynamics_congr E _ _ ?_ ?_ ?_ ?_
      · rw [f5.1, hp2, f4.1, f3.1, hp1, f2.1, f1.1, hp0, f0.1, g1.1]
      · rw [f5.2.2.2.1, hp2, f4.2.2.2.1, f3.2.2.2.1, hp1, f2.2.2.2.1, f1.2.2.2.1, hp0,
          f0.2.2.2.1, g1.2.2.2.1]
      · rw [f5.2.2.2.2.1, hp2, f4.2.2.2.2.1, f3.2.2.2.2.1, hp1, f2.2.2.2.2.1, f1.2.2.2.2.1,
          hp0, f0.2.2.2.2.1, g1.2.2.2.2.1]
      · rw [set_filter_current, set_filter_current]
    rw [FrameProcessor.get_frame_data]
    rw [hfull] at hkey
    exact hkey

/-- C1, witness: the no-op, the switch, and the `A → B → A` round trip at
concrete stores and externals (with one interleaved frame access per pass). -/
theorem C1_witness :
    (sampleProc.set_filter "None" = sampleProc) ∧
    ("Butterworth" ≠ sampleProc.current_filter ∧
      (sampleProc.set_filter "Butterworth").current_filter = "Butterworth" ∧
      (sampleProc.set_filter "Butterworth").dynamics_cache = []) ∧
    ("None" ≠ "Butterworth" ∧
      (roundTripA sampleExternals sampleBase sampleSecond sampleSecond "Butterworth" "None"
        [] [0] [1]).dynamics_cache = [] ∧
      lookupA ((roundTripA sampleExternals sampleBase sampleSecond sampleSecond "Butterworth"
          "None" [] [0] [1]).get_frame_data sampleExternals 0).1.forces "calculated" =
        some ((((mkFrameProcessor sampleBase sampleSecond sampleSecond).set_filter
            "Butterworth").fullDynamics sampleExternals).force.getD
          ((roundTripA sampleExternals sampleBase sampleSecond sampleSecond "Butterworth"
            "None" [] [0] [1]).clampIdx 0) PVec.zero) ∧
      lookupA ((roundTripA sampleExternals sampleBase sampleSecond sampleSecond "Butterworth"
          "None" [] [0] [1]).get_frame_data sampleExternals 0).1.torques "calculated" =
        some ((((mkFrameProcessor sampleBase sampleSecond sampleSecond).set_filter
            "Butterworth").fullDynamics sampleExternals).torque.getD
          ((roundTripA sampleExternals sampleBase sampleSecond sampleSecond "Butterworth"
            "None" [] [0] [1]).clampIdx 0) PVec.zero)) :=
  ⟨(C1_cache_discarded_wholesale sampleExternals).1 sampleProc,
   ⟨by decide,
    (C1_cache_discarded_wholesale sampleExternals).2.1 sampleProc "Butterworth" (by decide)⟩,
   ⟨by decide,
    ((C1_cache_discarded_wholesale sampleExternals).2.2 sampleBase sampleSecond sampleSecond
      "Butterworth" "None" [] [0] [1] (by decide)).1,
    (((C1_cache_discarded_wholesale sampleExternals).2.2 sampleBase sampleSecond sampleSecond
      "Butterworth" "None" [] [0] [1] (by decide)).2 0).1,
    (((C1_cache_discarded_wholesale sampleExternals).2.2 sampleBase sampleSecond sampleSecond
      "Butterworth" "None" [] [0] [1] (by decide)).2 0).2⟩⟩

/-- The dynamics entry `get_frame_data` reads for the current filter: the
cached one if present, else the batch it computes on the spot. -/
def FrameProcessor.currentDynamics (E : Externals) (p : FrameProcessor) : Dynamics :=
  match lookupA p.dynamics_cache p.current_filter with
  | some dy => dy
  | none => p.fullDynamics E

/-- After `getFrameAt`, the raw cache slot for the index holds exactly the
returned record (they are one Python object in the source). -/
theorem getFrameAt_caches_frame (E : Externals) (p : FrameProcessor) (i : ℕ) :
    lookupA ((p.getFrameAt E i).2).raw_data_cache i = some (p.getFrameAt E i).1 := by
  unfold FrameProcessor.getFrameAt
  cases hr : lookupA p.raw_data_cache i <;> dsimp only <;> split <;>
    exact lookupA_updA_self _ _ _

/-- On a raw-cache hit, `getFrameAt` returns the cached record with only its
`'calculated'` force/torque entries overwritten from the current filter's
dynamics. -/
theorem getFrameAt_on_hit (E : Externals) (q : FrameProcessor) (c : ℕ) (fd : FrameData)
    (h : lookupA q.raw_data_cache c = some fd) :
    (q.getFrameAt E c).1 =
      { fd with
        forces := updA fd.forces "calculated" ((q.currentDynamics E).force.getD c PVec.zero)
        torques :=
          updA fd.torques "calculated" ((q.currentDynamics E).torque.getD c PVec.zero) } := by
  unfold FrameProcessor.getFrameAt FrameProcessor.currentDynamics
    FrameProcessor.calcDynamicsForFilter
  rw [h]
  cases hn : lookupA q.dynamics_cache q.current_filter <;>
    simp [h, hn, lookupA_updA_self]

/-- The state reached by one frame access followed by a filter switch. -/
def afterSwitch (E : Externals) (p : FrameProcessor) (i : ℤ) (g : String) : FrameProcessor :=
  ((p.get_frame_data E i).2).set_filter g

/-- C4 (amended): snapshots are NOT immutable and ARE reused across filters.
The raw cache entry built for an index survives a filter switch untouched
(first conjunct: the very record returned to the first caller is still the
slot's content after `set_filter`), and a later `get_frame_data` under the
new filter returns that same record with only its `'calculated'`
force/torque entries overwritten in place from the new filter's dynamics
(second conjunct); the slot — one object with the previously returned
snapshot in the source — then holds the mutated record (third conjunct).
Every other field (points, time, dataset forces/torques, face normal) is
carried over unchanged, which is all of the original claim that survives. -/
theorem C4_snapshot_mutated_in_place (E : Externals) (p : FrameProcessor) (i : ℤ) (g : String) :
    lookupA (afterSwitch E p i g).raw_data_cache (p.clampIdx i) =
      some (p.get_frame_data E i).1 ∧
    ((afterSwitch E p i g).get_frame_data E i).1 =
      { (p.get_frame_data E i).1 with
        forces := updA (p.get_frame_data E i).1.forces "calculated"
          (((afterSwitch E p i g).currentDynamics E).force.getD (p.clampIdx i) PVec.zero)
        torques := updA (p.get_frame_data E i).1.torques "calculated"
          (((afterSwitch E p i g).currentDynamics E).torque.getD (p.clampIdx i) PVec.zero) } ∧
    lookupA (((afterSwitch E p i g).get_frame_data E i).2).raw_data_cache (p.clampIdx i) =
      some ((afterSwitch E p i g).get_frame_data E i).1 := by
  have hraw : (afterSwitch E p i g).raw_data_cache = ((p.get_frame_data E i).2).raw_data_cache :=
    (set_filter_fields _ g).2.2.2.2.2
  have h1 : lookupA (afterSwitch E p i g).raw_data_cache (p.clampIdx i) =
      some (p.get_frame_data E i).1 := by
    rw [hraw]
    exact getFrameAt_caches_frame E p (p.clampIdx i)
  have hclamp : (afterSwitch E p i g).clampIdx i = p.clampIdx i := by
    unfold FrameProcessor.clampIdx afterSwitch
    rw [(set_filter_fields _ g).2.2.2.1, (get_frame_data_fields E p i).2.2.2.1]
  refine ⟨h1, ?_, ?_⟩
  · have := getFrameAt_on_hit E (afterSwitch E p i g) (p.clampIdx i)
      (p.get_frame_data E i).1 h1
    rw [FrameProcessor.get_frame_data, hclamp]
    exact this
  · rw [FrameProcessor.get_frame_data, hclamp]
    exact getFrameAt_caches_frame E (afterSwitch E p i g) (p.clampIdx i)

/-- C4, counterexample to the claim as stated: after `get_frame(0)` under
`'None'` and a switch to `'Butterworth'`, the raw cache still holds the very
snapshot returned to the first caller (it is reused across filters, not
evicted), and after the next `get_frame(0)` that snapshot's `'calculated'`
force entry has changed — in the source the cache slot and the record handed
to the first caller are one Python object, so a field of the
already-returned snapshot was changed by a later operation. -/
theorem C4_counterexample_mutation :
    lookupA ((sampleProc.get_frame_data sampleExternals 0).2.set_filter
        "Butterworth").raw_data_cache 0 =
      some (sampleProc.get_frame_data sampleExternals 0).1 ∧
    lookupA ((((sampleProc.get_frame_data sampleExternals 0).2.set_filter
          "Butterworth").get_frame_data sampleExternals 0).2).raw_data_cache 0 =
      some (((sampleProc.get_frame_data sampleExternals 0).2.set_filter
          "Butterworth").get_frame_data sampleExternals 0).1 ∧
    lookupA ((((sampleProc.get_frame_data sampleExternals 0).2.set_filter
          "Butterworth").get_frame_data sampleExternals 0).1).forces "calculated" ≠
      lookupA ((sampleProc.get_frame_data sampleExternals 0).1).forces "calculated" := by
  refine ⟨?_, ?_, ?_⟩ <;> decide

/-- `lookupA` only returns stored bindings. -/
theorem lookupA_mem {κ α : Type} [DecidableEq κ] (l : List (κ × α)) (k : κ) (v : α)
    (h : lookupA l k = some v) : (k, v) ∈ l := by
  induction l with
  | nil => simp at h
  | cons hd tl ih =>
      rw [lookupA_cons] at h
      by_cases hk : hd.1 = k
      · rw [if_pos hk] at h
        obtain rfl : hd.2 = v := by simpa using h
        subst hk
        exact List.mem_cons_self hd tl
      · rw [if_neg hk] at h
        exact List.mem_cons_of_mem hd (ih h)

/-- Membership after a `dict` assignment: the new binding or an old one. -/
theorem mem_updA {κ α : Type} [DecidableEq κ] (l : List (κ × α)) (k : κ) (v : α)
    (kv : κ × α) (h : kv ∈ updA l k v) : kv = (k, v) ∨ kv ∈ l := by
  induction l with
  | nil => simpa [updA] using h
  | cons hd tl ih =>
      unfold updA at h
      by_cases hk : hd.1 = k
      · rw [if_pos hk] at h
        rcases List.mem_cons.mp h with h1 | h1
        · exact Or.inl h1
        · exact Or.inr (List.mem_cons_of_mem hd h1)
      · rw [if_neg hk] at h
        rcases List.mem_cons.mp h with h1 | h1
        · exact Or.inr (h1 ▸ List.mem_cons_self hd tl)
        · rcases ih h1 with h2 | h2
          · exact Or.inl h2
          · exact Or.inr (List.mem_cons_of_mem hd h2)

/-- A raw-cache entry is the frozen raw frame for its index, up to whatever
`'calculated'` entries previous accesses overwrote: overwriting them again
makes it literally the raw frame with those entries. -/
def rawEntryOK (p : FrameProcessor) (i : ℕ) (fd : FrameData) : Prop :=
  ∀ vf vt : PVec,
    ({ fd with
        forces := updA fd.forces "calculated" vf
        torques := updA fd.torques "calculated" vt } : FrameData) =
    { p.processRawFrame i with
        forces := updA (p.processRawFrame i).forces "calculated" vf
        torques := updA (p.processRawFrame i).torques "calculated" vt }

/-- The reachable-cache invariant: every raw-cache entry is its index's raw
frame modulo `'calculated'` overwrites.  Freshly constructed processors have
empty caches, and every operation preserves it. -/
def FrameProcessor.cacheWF (p : FrameProcessor) : Prop :=
  ∀ kv ∈ p.raw_data_cache, rawEntryOK p kv.1 kv.2

/-- The state-independent value `get_frame_data` returns for a clamped index:
the raw frame with `'calculated'` entries from the current filter's
dynamics. -/
def FrameProcessor.frameValue (E : Externals) (p : FrameProcessor) (i : ℕ) : FrameData :=
  { p.processRawFrame i with
    forces := updA (p.processRawFrame i).forces "calculated"
      ((p.currentDynamics E).force.getD i PVec.zero)
    torques := updA (p.processRawFrame i).torques "calculated"
      ((p.currentDynamics E).torque.getD i PVec.zero) }

theorem rawEntryOK_congr {p q : FrameProcessor} (i : ℕ) (fd : FrameData)
    (h : p.processRawFrame i = q.processRawFrame i) :
    rawEntryOK p i fd → rawEntryOK q i fd := by
  intro hok vf vt
  rw [← h]
  exact hok vf vt

/-- A freshly constructed processor satisfies the cache invariant. -/
theorem cacheWF_mk (b z d : DataFrame) : (mkFrameProcessor b z d).cacheWF := by
  intro kv hkv
  simp [mkFrameProcessor] at hkv

/-- `set_filter` preserves the cache invariant. -/
theorem cacheWF_set_filter (p : FrameProcessor) (g : String) (h : p.cacheWF) :
    (p.set_filter g).cacheWF := by
  intro kv hkv
  have hfields := set_filter_fields p g
  rw [hfields.2.2.2.2.2] at hkv
  exact rawEntryOK_congr kv.1 kv.2
    (processRawFrame_congr p (p.set_filter g) hfields.1.symm hfields.2.1.symm
      hfields.2.2.1.symm hfields.2.2.2.2.1.symm kv.1) (h kv hkv)

/-- The raw cache after `getFrameAt` is the old cache with the returned
record written at the index (the double write of the miss branch collapses). -/
theorem getFrameAt_raw_cache (E : Externals) (p : FrameProcessor) (i : ℕ) :
    ((p.getFrameAt E i).2).raw_data_cache = updA p.raw_data_cache i (p.getFrameAt E i).1 := by
  unfold FrameProcessor.getFrameAt FrameProcessor.calcDynamicsForFilter
  cases hr : lookupA p.raw_data_cache i <;> dsimp only <;> split <;> simp [updA_updA]

/-- Under the cache invariant, the record `getFrameAt` returns is the
state-independent `frameValue`. -/
theorem getFrameAt_value (E : Externals) (p : FrameProcessor) (i : ℕ) (h : p.cacheWF) :
    (p.getFrameAt E i).1 = p.frameValue E i := by
  unfold FrameProcessor.getFrameAt FrameProcessor.frameValue FrameProcessor.currentDynamics
    FrameProcessor.calcDynamicsForFilter
  cases hr : lookupA p.raw_data_cache i with
  | none =>
      dsimp only
      cases hn : lookupA p.dynamics_cache p.current_filter <;>
        simp only [hn, lookupA_updA_self, Option.getD_some, Option.isSome_none,
          Option.isSome_some, Bool.false_eq_true, if_false, if_true]
      rw [fullDynamics_congr E
        { p with raw_data_cache := updA p.raw_data_cache i (p.processRawFrame i) } p
        rfl rfl rfl rfl]
  | some fd =>
      have hok := h (i, fd) (lookupA_mem _ _ _ hr)
      dsimp only
      cases hn : lookupA p.dynamics_cache p.current_filter <;>
        simp only [hn, hr, lookupA_updA_self, Option.getD_some, Option.isSome_none,
          Option.isSome_some, Bool.false_eq_true, if_false, if_true] <;>
        rw [hok]

/-- A frame access never changes which dynamics entry is current: a hit
leaves the cache alone, and a miss installs exactly the batch it computed. -/
theorem currentDynamics_getFrameAt (E : Externals) (p : FrameProcessor) (i : ℕ) :
    ((p.getFrameAt E i).2).currentDynamics E = p.currentDynamics E := by
  unfold FrameProcessor.getFrameAt FrameProcessor.currentDynamics
    FrameProcessor.calcDynamicsForFilter
  cases hr : lookupA p.raw_data_cache i <;> dsimp only <;>
    cases hn : lookupA p.dynamics_cache p.current_filter <;>
      simp only [hn, lookupA_updA_self, Option.isSome_none, Option.isSome_some,
        Bool.false_eq_true, if_false, if_true, Option.getD_some] <;>
      rw [fullDynamics_congr E
        { p with raw_data_cache := updA p.raw_data_cache i (p.processRawFrame i) } p
        rfl rfl rfl rfl]

/-- A frame access never changes the value another access would return. -/
theorem frameValue_getFrameAt (E : Externals) (p : FrameProcessor) (i j : ℕ) :
    ((p.getFrameAt E i).2).frameValue E j = p.frameValue E j := by
  have hf := getFrameAt_fields E p i
  unfold FrameProcessor.frameValue
  rw [currentDynamics_getFrameAt,
    processRawFrame_congr ((p.getFrameAt E i).2) p hf.1 hf.2.1 hf.2.2.1 hf.2.2.2.2.1 j]

/-- A frame access never changes the clamp bound. -/
theorem clampIdx_getFrameAt (E : Externals) (p : FrameProcessor) (i : ℕ) (j : ℤ) :
    ((p.getFrameAt E i).2).clampIdx j = p.clampIdx j := by
  unfold FrameProcessor.clampIdx
  rw [(getFrameAt_fields E p i).2.2.2.1]

/-- `getFrameAt` preserves the cache invariant. -/
theorem cacheWF_getFrameAt (E : Externals) (p : FrameProcessor) (i : ℕ) (h : p.cacheWF) :
    ((p.getFrameAt E i).2).cacheWF := by
  intro kv hkv
  have hf := getFrameAt_fields E p i
  have hpr : ∀ j, ((p.getFrameAt E i).2).processRawFrame j = p.processRawFrame j :=
    fun j => processRawFrame_congr ((p.getFrameAt E i).2) p hf.1 hf.2.1 hf.2.2.1 hf.2.2.2.2.1 j
  rw [getFrameAt_raw_cache] at hkv
  rcases mem_updA _ _ _ _ hkv with h1 | h1
  · subst h1
    intro vf vt
    rw [hpr, getFrameAt_value E p i h]
    unfold FrameProcessor.frameValue
    simp only [updA_updA]
  · intro vf vt
    rw [hpr]
    exact h kv h1 vf vt

/-- The collecting loop of `get_frame_range`, run from any invariant-holding
state, collects exactly the values that independent `get_frame_data` calls on
the starting state would return. -/
theorem foldl_frames (E : Externals) (l : List ℤ) (p : FrameProcessor) (acc : List FrameData)
    (h : p.cacheWF) :
    (l.foldl (fun acc i =>
        ((acc.1 ++ [(FrameProcessor.get_frame_data E acc.2 i).1],
          (FrameProcessor.get_frame_data E acc.2 i).2) : List FrameData × FrameProcessor))
      (acc, p)).1 = acc ++ l.map (fun i => (p.get_frame_data E i).1) := by
  induction l generalizing p acc with
  | nil => simp
  | cons j l ih =>
      simp only [List.foldl_cons, List.map_cons]
      have h' : ((p.getFrameAt E (p.clampIdx j)).2).cacheWF :=
        cacheWF_getFrameAt E p (p.clampIdx j) h
      rw [ih ((p.get_frame_data E j).2) (acc ++ [(p.get_frame_data E j).1]) h']
      have hval : ∀ k : ℤ,
          (((p.get_frame_data E j).2).get_frame_data E k).1 = (p.get_frame_data E k).1 := by
        intro k
        show (((p.getFrameAt E (p.clampIdx j)).2).getFrameAt E
          (((p.getFrameAt E (p.clampIdx j)).2).clampIdx k)).1 = (p.getFrameAt E (p.clampIdx k)).1
        rw [getFrameAt_value E _ _ h', clampIdx_getFrameAt, frameValue_getFrameAt,
          getFrameAt_value E p (p.clampIdx k) h]
      rw [List.map_congr_left (fun k _ => hval k)]
      simp

/-- C5 (amended): out-of-range single-frame requests clamp to the nearest
bound and never error (for EVERY integer index, `get_frame_data(i)` equals
`get_frame_data` of the clamped index — state and returned snapshot alike);
and `get_frame_range(start, end)` equals the sequence of independent
`get_frame_data(i)` calls for `i` from `max(0, start)` to
`min(num_frames - 1, end)` inclusive — `start` is clamped from below only and
`end` from above only, so a range lying wholly outside the timeline is empty
rather than collapsing to a boundary frame (the correction to the claim). -/
theorem C5_clamped_access_and_range :
    (∀ (E : Externals) (p : FrameProcessor) (i : ℤ),
      p.get_frame_data E i = p.get_frame_data E ((p.clampIdx i : ℤ))) ∧
    (∀ (E : Externals) (p : FrameProcessor) (a b : ℤ), p.cacheWF →
      (p.get_frame_range E a b).1 =
        (intRange (max 0 a) (min ((p.num_frames : ℤ) - 1) b)).map
          (fun j => (p.get_frame_data E j).1)) := by
  constructor
  · intro E p i
    have hcc : p.clampIdx ((p.clampIdx i : ℤ)) = p.clampIdx i := by
      unfold FrameProcessor.clampIdx
      omega
    rw [FrameProcessor.get_frame_data, FrameProcessor.get_frame_data, hcc]
  · intro E p a b h
    unfold FrameProcessor.get_frame_range
    exact foldl_frames E _ p [] h

/-- C5, counterexample to the range part as stated: with both bounds below 0
(`start = -5`, `end = -3`, two frames), each bound clamps to 0, so the claim
predicts the one-element sequence `[get_frame(0)]`; the code returns the
empty list, because `range(max(0, start), min(N - 1, end) + 1)` is empty. -/
theorem C5_counterexample_crossed_range :
    (sampleProc.get_frame_range sampleExternals (-5) (-3)).1 = [] ∧
    sampleProc.clampIdx (-5) = 0 ∧
    sampleProc.clampIdx (-3) = 0 ∧
    (sampleProc.get_frame_range sampleExternals (-5) (-3)).1 ≠
      (intRange ((sampleProc.clampIdx (-5) : ℤ)) ((sampleProc.clampIdx (-3) : ℤ))).map
        (fun j => (sampleProc.get_frame_data sampleExternals j).1) := by
  have h0 : (sampleProc.get_frame_range sampleExternals (-5) (-3)).1 = [] := by decide
  have h1 : intRange ((sampleProc.clampIdx (-5) : ℤ)) ((sampleProc.clampIdx (-3) : ℤ)) =
      [0] := by decide
  refine ⟨h0, by decide, by decide, ?_⟩
  rw [h0, h1]
  simp

/-- C5, witness of the amended claim: an out-of-range access and a partly
out-of-range range at the sample processor (whose caches are empty, so the
cache invariant holds vacuously). -/
theorem C5_witness :
    (sampleProc.get_frame_data sampleExternals (-9) =
      sampleProc.get_frame_data sampleExternals ((sampleProc.clampIdx (-9) : ℤ))) ∧
    sampleProc.cacheWF ∧
    (sampleProc.get_frame_range sampleExternals (-7) 5).1 =
      (intRange (max 0 (-7)) (min ((sampleProc.num_frames : ℤ) - 1) 5)).map
        (fun j => (sampleProc.get_frame_data sampleExternals j).1) :=
  ⟨C5_clamped_access_and_range.1 sampleExternals sampleProc (-9),
   fun kv hkv => absurd hkv (List.not_mem_nil kv),
   C5_clamped_access_and_range.2 sampleExternals sampleProc (-7) 5
     (fun kv hkv => absurd hkv (List.not_mem_nil kv))⟩

/-- C7: with zero (or sub-threshold) clubhead velocity the face-normal
routine never takes the velocity-based branch: its result is exactly the
step-4 fallback — the normalized horizontal perpendicular
`(-sd.y, sd.x, 0)/‖(-sd.y, sd.x, 0)‖` when the shaft direction's vertical
component has magnitude `< 0.99`, and the fixed default `(1,0,0)` otherwise.
(`sd` is a unit vector, as the shaft direction the caller passes always is;
unitness makes the fallback's own magnitude guard pass.) -/
theorem C7_zero_velocity_fallback (cur prev sd : V3 ℝ)
    (hUnit : sd.normSq = 1) (hVel : normR (cur - prev) ≤ 1e-4) :
    calculateFaceNormalJitR cur prev sd = faceFallbackR sd ∧
    (|sd.z| < 0.99 →
      calculateFaceNormalJitR cur prev sd =
        (⟨-sd.y, sd.x, 0⟩ : V3 ℝ).sdiv (normR ⟨-sd.y, sd.x, 0⟩)) ∧
    (0.99 ≤ |sd.z| → calculateFaceNormalJitR cur prev sd = ⟨1, 0, 0⟩) := by
  have hmain : calculateFaceNormalJitR cur prev sd = faceFallbackR sd := by
    unfold calculateFaceNormalJitR
    rw [if_neg (not_lt.mpr hVel)]
  refine ⟨hmain, ?_, ?_⟩
  · intro hz
    have hfb : (⟨-sd.y, sd.x, 0⟩ : V3 ℝ).normSq = 1 - sd.z * sd.z := by
      unfold V3.normSq at hUnit ⊢
      dsimp only
      nlinarith [hUnit]
    have hzz : sd.z * sd.z < (0.99 : ℝ) * 0.99 := by
      obtain ⟨h1, h2⟩ := abs_lt.mp hz
      nlinarith
    have hgt : normR ⟨-sd.y, sd.x, 0⟩ > 1e-6 := by
      rw [normR, gt_iff_lt, Real.lt_sqrt (by norm_num), hfb]
      nlinarith
    rw [hmain]
    unfold faceFallbackR
    rw [if_pos hz, if_pos hgt]
  · intro hz
    rw [hmain]
    unfold faceFallbackR
    rw [if_neg (not_lt.mpr hz)]

/-- C7, witness: equal current and previous clubhead positions with a
horizontal unit shaft `(1,0,0)` (first fallback branch) and a vertical unit
shaft `(0,0,1)` (final default branch). -/
theorem C7_witness :
    ((⟨1, 0, 0⟩ : V3 ℝ).normSq = 1 ∧
      normR ((⟨1, 2, 3⟩ : V3 ℝ) - ⟨1, 2, 3⟩) ≤ 1e-4 ∧
      |(⟨1, 0, 0⟩ : V3 ℝ).z| < 0.99 ∧
      calculateFaceNormalJitR ⟨1, 2, 3⟩ ⟨1, 2, 3⟩ ⟨1, 0, 0⟩ =
        (⟨-(0 : ℝ), 1, 0⟩ : V3 ℝ).sdiv (normR ⟨-(0 : ℝ), 1, 0⟩)) ∧
    ((⟨0, 0, 1⟩ : V3 ℝ).normSq = 1 ∧
      (0.99 : ℝ) ≤ |(⟨0, 0, 1⟩ : V3 ℝ).z| ∧
      calculateFaceNormalJitR ⟨1, 2, 3⟩ ⟨1, 2, 3⟩ ⟨0, 0, 1⟩ = ⟨1, 0, 0⟩) := by
  have hv : normR ((⟨1, 2, 3⟩ : V3 ℝ) - ⟨1, 2, 3⟩) ≤ 1e-4 := by
    rw [normR]
    norm_num [V3.normSq, Real.sqrt_zero]
  have h1 : (⟨1, 0, 0⟩ : V3 ℝ).normSq = 1 := by norm_num [V3.normSq]
  have h2 : (⟨0, 0, 1⟩ : V3 ℝ).normSq = 1 := by norm_num [V3.normSq]
  refine ⟨⟨h1, hv, by norm_num, ?_⟩, ⟨h2, by norm_num, ?_⟩⟩
  · exact (C7_zero_velocity_fallback ⟨1, 2, 3⟩ ⟨1, 2, 3⟩ ⟨1, 0, 0⟩ h1 hv).2.1 (by norm_num)
  · exact (C7_zero_velocity_fallback ⟨1, 2, 3⟩ ⟨1, 2, 3⟩ ⟨0, 0, 1⟩ h2 hv).2.2 (by norm_num)

/-- Length of a flat list built from constant-size chunks over `range n`. -/
theorem length_flatMap_range {α : Type} (n k : ℕ) (f : ℕ → List α)
    (h : ∀ i, (f i).length = k) : ((List.range n).flatMap f).length = n * k := by
  induction n with
  | zero => simp
  | succ m ih =>
      rw [List.range_succ]
      simp only [List.flatMap_append, List.flatMap_cons, List.flatMap_nil, List.length_append,
        List.append_nil, ih, h]
      ring

/-- C9: mesh sizes and the wrap seam.  `Cylinder(r, h, n)` emits exactly
`2(n+1)` vertices (`6(n+1)` floats) and `2n` triangles (`6n` indices);
`Sphere(r, lat, lon)` emits exactly `(lat+1)(lon+1)` vertices and
`2·lat·lon` triangles.  Both wrap seams are watertight: the cylinder's last
ring — the ring the last quad's `(i+1) % (segments+1)` indexing references —
has exactly the same six vertex floats as ring 0 (`cos`/`sin` of `2π` equal
those of `0`), and each latitude row of the sphere ends with a vertex whose
floats equal its first (`lon = 2π` against `lon = 0`). -/
theorem C9_mesh_counts_and_seam :
    (∀ (r h : ℝ) (n : ℕ),
      (cylinderVertices r h n).length = 3 * (2 * (n + 1)) ∧
      (cylinderIndices n).length = 3 * (2 * n)) ∧
    (∀ (r : ℝ) (lat lon : ℕ),
      (sphereVertices r lat lon).length = 3 * ((lat + 1) * (lon + 1)) ∧
      (sphereIndices lat lon).length = 3 * (2 * lat * lon)) ∧
    (∀ (r h : ℝ) (n : ℕ), 1 ≤ n →
      ((n - 1) + 1) % (n + 1) = n ∧
      cylinderRing r h n n = cylinderRing r h n 0) ∧
    (∀ (r : ℝ) (lat lon i : ℕ), 1 ≤ lon →
      sphereVertex r lat lon i lon = sphereVertex r lat lon i 0) := by
  refine ⟨?_, ?_, ?_, ?_⟩
  · intro r h n
    constructor
    · rw [cylinderVertices, length_flatMap_range (n + 1) 6 (cylinderRing r h n) (fun i => rfl)]
      ring
    · rw [cylinderIndices,
        length_flatMap_range n 6
          (fun i => [i * 2, i * 2 + 1, (i + 1) % (n + 1) * 2, (i + 1) % (n + 1) * 2,
            i * 2 + 1, (i + 1) % (n + 1) * 2 + 1]) (fun i => rfl)]
      ring
  · intro r lat lon
    constructor
    · rw [sphereVertices,
        length_flatMap_range (lat + 1) (3 * (lon + 1))
          (fun i => (List.range (lon + 1)).flatMap (fun j => sphereVertex r lat lon i j))
          (fun i => by
            rw [length_flatMap_range (lon + 1) 3 (fun j => sphereVertex r lat lon i j)
              (fun j => rfl)]
            ring)]
      ring
    · rw [sphereIndices,
        length_flatMap_range lat (6 * lon)
          (fun i => (List.range lon).flatMap (fun j =>
            let first := i * (lon + 1) + j
            let second := first + lon + 1
            [first, second, first + 1, second, second + 1, first + 1]))
          (fun i => by
            rw [length_flatMap_range lon 6
              (fun j =>
                let first := i * (lon + 1) + j
                let second := first + lon + 1
                [first, second, first + 1, second, second + 1, first + 1])
              (fun j => rfl)]
            ring)]
      ring
  · intro r h n hn
    have hne : (n : ℝ) ≠ 0 := Nat.cast_ne_zero.mpr (by omega)
    constructor
    · have hh : n - 1 + 1 = n := by omega
      rw [hh]
      exact Nat.mod_eq_of_lt (by omega)
    · unfold cylinderRing
      dsimp only
      rw [mul_div_assoc, div_self hne, mul_one]
      norm_num [Real.cos_two_pi, Real.sin_two_pi]
  · intro r lat lon i hl
    have hne : (lon : ℝ) ≠ 0 := Nat.cast_ne_zero.mpr (by omega)
    unfold sphereVertex
    dsimp only
    have hang : 2 * Real.pi * (lon : ℝ) / (lon : ℝ) = 2 * Real.pi := by
      field_simp
    rw [hang]
    norm_num [Real.cos_two_pi, Real.sin_two_pi]

/-- C9, witness: the default mesh resolutions (16-segment cylinder, 12×16
sphere). -/
theorem C9_witness :
    ((cylinderVertices 1 1 16).length = 3 * (2 * (16 + 1)) ∧
      (cylinderIndices 16).length = 3 * (2 * 16)) ∧
    ((sphereVertices 1 12 16).length = 3 * ((12 + 1) * (16 + 1)) ∧
      (sphereIndices 12 16).length = 3 * (2 * 12 * 16)) ∧
    (1 ≤ 16 ∧ ((16 - 1) + 1) % (16 + 1) = 16 ∧
      cylinderRing 1 1 16 16 = cylinderRing 1 1 16 0) ∧
    (1 ≤ 16 ∧ sphereVertex 1 12 16 3 16 = sphereVertex 1 12 16 3 0) :=
  ⟨C9_mesh_counts_and_seam.1 1 1 16,
   C9_mesh_counts_and_seam.2.1 1 12 16,
   ⟨by decide, C9_mesh_counts_and_seam.2.2.1 1 1 16 (by decide)⟩,
   ⟨by decide, C9_mesh_counts_and_seam.2.2.2 1 12 16 3 (by decide)⟩⟩

@[simp]
theorem M3R.add_rows (A B : M3R) : A + B = ⟨A.r0 + B.r0, A.r1 + B.r1, A.r2 + B.r2⟩ :=
  rfl

@[simp]
theorem M3R.sub_rows (A B : M3R) : A - B = ⟨A.r0 - B.r0, A.r1 - B.r1, A.r2 - B.r2⟩ :=
  rfl

@[simp]
theorem V3.neg_neg_def (a : V3 ℝ) : -(-a) = a := by
  rw [V3.ext_iff]
  simp

@[simp]
theorem V3.zero_x {R : Type} [CommRing R] : (0 : V3 R).x = 0 :=
  rfl

@[simp]
theorem V3.zero_y {R : Type} [CommRing R] : (0 : V3 R).y = 0 :=
  rfl

@[simp]
theorem V3.zero_z {R : Type} [CommRing R] : (0 : V3 R).z = 0 :=
  rfl

theorem normSq_nonneg (a : V3 ℝ) : 0 ≤ a.normSq := by
  unfold V3.normSq
  nlinarith [mul_self_nonneg a.x, mul_self_nonneg a.y, mul_self_nonneg a.z]

theorem normSq_eq_zero_iff (a : V3 ℝ) : a.normSq = 0 ↔ a = 0 := by
  unfold V3.normSq
  rw [V3.ext_iff]
  simp only [V3.zero_x, V3.zero_y, V3.zero_z]
  constructor
  · intro h
    refine ⟨?_, ?_, ?_⟩ <;>
      nlinarith [mul_self_nonneg a.x, mul_self_nonneg a.y, mul_self_nonneg a.z]
  · intro ⟨hx, hy, hz⟩
    rw [hx, hy, hz]
    ring

theorem normR_pos (a : V3 ℝ) (h : a ≠ 0) : 0 < normR a :=
  Real.sqrt_pos.mpr
    (lt_of_le_of_ne (normSq_nonneg a) (fun he => h ((normSq_eq_zero_iff a).mp he.symm)))

theorem normR_mul_self (a : V3 ℝ) : normR a * normR a = a.normSq :=
  Real.mul_self_sqrt (normSq_nonneg a)

/-- Normalizing a non-zero vector yields a unit vector. -/
theorem unit_normSq (a : V3 ℝ) (h : a ≠ 0) : (a.sdiv (normR a)).normSq = 1 := by
  have hn : normR a ≠ 0 := ne_of_gt (normR_pos a h)
  have h2 : normR a * normR a = a.normSq := normR_mul_self a
  unfold V3.sdiv V3.normSq
  unfold V3.normSq at h2
  dsimp only
  field_simp
  linarith [h2]

theorem allclose3_refl (a : V3 ℝ) : allclose3 a a := by
  unfold allclose3
  refine ⟨?_, ?_, ?_⟩ <;> (rw [sub_self, abs_zero]; positivity)

/-- A unit vector is never `np.allclose` to its own negation: some component
has absolute value at least `1/√3`, far beyond the tolerance. -/
theorem not_allclose_neg_self (u : V3 ℝ) (h : u.normSq = 1) : ¬ allclose3 u (-u) := by
  intro hc
  obtain ⟨h1, h2, h3⟩ := hc
  simp only [V3.neg_def, sub_neg_eq_add, abs_neg] at h1 h2 h3
  have hh : u.x * u.x + u.y * u.y + u.z * u.z = 1 := h
  have e1 : |u.x + u.x| = 2 * |u.x| := by
    rw [← two_mul, abs_mul]
    norm_num
  have e2 : |u.y + u.y| = 2 * |u.y| := by
    rw [← two_mul, abs_mul]
    norm_num
  have e3 : |u.z + u.z| = 2 * |u.z| := by
    rw [← two_mul, abs_mul]
    norm_num
  rw [e1] at h1
  rw [e2] at h2
  rw [e3] at h3
  nlinarith [abs_nonneg u.x, abs_nonneg u.y, abs_nonneg u.z, abs_mul_abs_self u.x,
    abs_mul_abs_self u.y, abs_mul_abs_self u.z]

/-- `2·w·wᵗ - I` applied to `v`, where `w` is the (normalized) cross product
of `v`'s own unit direction with any vector: always `-v`, because `w ⊥ v`.
Stated as a pure field identity in the scaling factors, so it covers every
branch of the antiparallel case at once. -/
theorem rot180_mulVec (v P : V3 ℝ) (n m : ℝ) :
    (M3R.smulM 2 (M3R.outer ((V3.cross (v.sdiv n) P).sdiv m)
        ((V3.cross (v.sdiv n) P).sdiv m)) - M3R.id3).mulVec v = -v := by
  unfold M3R.mulVec M3R.smulM M3R.outer M3R.id3 V3.cross V3.sdiv V3.dot V3.smul
  simp only [M3R.sub_rows, V3.sub_def, V3.neg_def]
  rw [V3.ext_iff]
  refine ⟨?_, ?_, ?_⟩ <;> (dsimp only; ring)

theorem skewM_mulVec (w a : V3 ℝ) : (skewM w).mulVec a = V3.cross w a := by
  unfold skewM M3R.mulVec V3.dot V3.cross
  rw [V3.ext_iff]
  refine ⟨?_, ?_, ?_⟩ <;> (dsimp only; ring)

theorem mul_mulVec (A B : M3R) (a : V3 ℝ) :
    (M3R.mul A B).mulVec a = A.mulVec (B.mulVec a) := by
  unfold M3R.mul M3R.mulVec M3R.col0 M3R.col1 M3R.col2 V3.dot
  rw [V3.ext_iff]
  refine ⟨?_, ?_, ?_⟩ <;> (dsimp only; ring)

theorem V3.add_def {R : Type} [CommRing R] (a b : V3 R) :
    a + b = (⟨a.x + b.x, a.y + b.y, a.z + b.z⟩ : V3 R) :=
  rfl

theorem add_mulVec (A B : M3R) (a : V3 ℝ) :
    (A + B).mulVec a = A.mulVec a + B.mulVec a := by
  unfold M3R.mulVec V3.dot
  simp only [M3R.add_rows, V3.add_def]
  rw [V3.ext_iff]
  refine ⟨?_, ?_, ?_⟩ <;> (dsimp only; ring)

theorem smulM_mulVec (t : ℝ) (A : M3R) (a : V3 ℝ) :
    (M3R.smulM t A).mulVec a = V3.smul t (A.mulVec a) := by
  unfold M3R.smulM M3R.mulVec V3.dot V3.smul
  rw [V3.ext_iff]
  refine ⟨?_, ?_, ?_⟩ <;> (dsimp only; ring)

theorem id3_mulVec (a : V3 ℝ) : M3R.id3.mulVec a = a := by
  unfold M3R.id3 M3R.mulVec V3.dot
  rw [V3.ext_iff]
  refine ⟨?_, ?_, ?_⟩ <;> (dsimp only; ring)

/-- `(u1 × u2) × u1 = u2 - (u1·u2)·u1` for unit `u1` (vector triple
product). -/
theorem cross_cross_self (u1 u2 : V3 ℝ) (h : u1.normSq = 1) :
    V3.cross (V3.cross u1 u2) u1 = u2 - V3.smul (V3.dot u1 u2) u1 := by
  have hh : u1.x * u1.x + u1.y * u1.y + u1.z * u1.z = 1 := h
  unfold V3.cross V3.smul V3.dot
  simp only [V3.sub_def]
  rw [V3.ext_iff]
  refine ⟨?_, ?_, ?_⟩
  · dsimp only
    linear_combination u2.x * hh
  · dsimp only
    linear_combination u2.y * hh
  · dsimp only
    linear_combination u2.z * hh

/-- `v × (v × a) = (v·a)·v - ‖v‖²·a` (vector triple product, no
hypotheses). -/
theorem cross_cross_outer (v a : V3 ℝ) :
    V3.cross v (V3.cross v a) = V3.smul (V3.dot v a) v - V3.smul v.normSq a := by
  unfold V3.cross V3.smul V3.dot V3.normSq
  simp only [V3.sub_def]
  rw [V3.ext_iff]
  refine ⟨?_, ?_, ?_⟩ <;> (dsimp only; ring)

/-- The cross product is orthogonal to its first factor. -/
theorem dot_cross_left (u1 u2 : V3 ℝ) : V3.dot (V3.cross u1 u2) u1 = 0 := by
  unfold V3.dot V3.cross
  dsimp only
  ring

/-- The generic Rodrigues branch maps the first unit vector to the second:
`(I + K + K²·(1-c)/s²)·u1 = u2` whenever `1 - c² ≠ 0` (the non-parallel
case). -/
theorem rodrigues_maps (u1 u2 : V3 ℝ) (h1 : u1.normSq = 1) (h2 : u2.normSq = 1)
    (hcc : (1 : ℝ) - V3.dot u1 u2 * V3.dot u1 u2 ≠ 0) :
    (M3R.id3 + skewM (V3.cross u1 u2) +
      M3R.smulM ((1 - V3.dot u1 u2) /
          (normR (V3.cross u1 u2) * normR (V3.cross u1 u2)))
        (M3R.mul (skewM (V3.cross u1 u2)) (skewM (V3.cross u1 u2)))).mulVec u1 = u2 := by
  have hss : normR (V3.cross u1 u2) * normR (V3.cross u1 u2) = (V3.cross u1 u2).normSq :=
    normR_mul_self _
  have hlag : (V3.cross u1 u2).normSq = 1 - V3.dot u1 u2 * V3.dot u1 u2 := by
    have hvp : (V3.cross u1 u2).normSq =
        u1.normSq * u2.normSq - V3.dot u1 u2 * V3.dot u1 u2 := by
      unfold V3.normSq V3.cross V3.dot
      dsimp only
      ring
    rw [hvp, h1, h2]
    ring
  have hss2 : normR (V3.cross u1 u2) * normR (V3.cross u1 u2) =
      1 - V3.dot u1 u2 * V3.dot u1 u2 := hss.trans hlag
  have ht : (1 - V3.dot u1 u2) / (normR (V3.cross u1 u2) * normR (V3.cross u1 u2)) *
      (1 - V3.dot u1 u2 * V3.dot u1 u2) = 1 - V3.dot u1 u2 := by
    rw [hss2]
    exact div_mul_cancel₀ _ hcc
  rw [add_mulVec, add_mulVec, id3_mulVec, skewM_mulVec, smulM_mulVec, mul_mulVec,
    skewM_mulVec, skewM_mulVec, cross_cross_outer, dot_cross_left,
    cross_cross_self u1 u2 h1, hlag]
  rw [V3.ext_iff]
  simp only [V3.add_def, V3.sub_def]
  unfold V3.smul
  refine ⟨?_, ?_, ?_⟩
  · dsimp only
    linear_combination (-u1.x) * ht
  · dsimp only
    linear_combination (-u1.y) * ht
  · dsimp only
    linear_combination (-u1.z) * ht

/-- Two unit vectors that are `np.allclose` neither to each other nor to
each other's negation are not parallel: `1 - (u1·u2)² ≠ 0`. -/
theorem one_sub_dot_sq_ne (u1 u2 : V3 ℝ) (h1 : u1.normSq = 1) (h2 : u2.normSq = 1)
    (hc1 : ¬ allclose3 u1 u2) (hc2 : ¬ allclose3 u1 (-u2)) :
    (1 : ℝ) - V3.dot u1 u2 * V3.dot u1 u2 ≠ 0 := by
  intro h0
  have hcsq : V3.dot u1 u2 * V3.dot u1 u2 = 1 := by linarith
  have hz : (u2 - V3.smul (V3.dot u1 u2) u1).normSq = 0 := by
    have expand : (u2 - V3.smul (V3.dot u1 u2) u1).normSq =
        u2.normSq - 2 * V3.dot u1 u2 * V3.dot u1 u2 +
          V3.dot u1 u2 * V3.dot u1 u2 * u1.normSq := by
      unfold V3.normSq V3.smul V3.dot
      simp only [V3.sub_def]
      try dsimp only
      ring
    rw [expand, h1, h2]
    nlinarith [hcsq]
  have hu2eq : u2 = V3.smul (V3.dot u1 u2) u1 := by
    have h00 : u2 - V3.smul (V3.dot u1 u2) u1 = 0 := (normSq_eq_zero_iff _).mp hz
    rw [V3.ext_iff] at h00 ⊢
    simp only [V3.sub_def, V3.zero_x, V3.zero_y, V3.zero_z] at h00
    obtain ⟨e1, e2, e3⟩ := h00
    unfold V3.smul
    unfold V3.smul at e1 e2 e3
    refine ⟨?_, ?_, ?_⟩ <;> ((try dsimp only at e1 e2 e3 ⊢); linarith)
  rcases mul_self_eq_one_iff.mp hcsq with h1' | h1'
  · apply hc1
    rw [hu2eq, h1']
    have hs1 : V3.smul 1 u1 = u1 := by
      unfold V3.smul
      rw [V3.ext_iff]
      refine ⟨?_, ?_, ?_⟩ <;> (dsimp only; ring)
    rw [hs1]
    exact allclose3_refl u1
  · apply hc2
    rw [hu2eq, h1']
    have hs1 : -(V3.smul (-1) u1) = u1 := by
      unfold V3.smul
      simp only [V3.neg_def]
      rw [V3.ext_iff]
      refine ⟨?_, ?_, ?_⟩ <;> (dsimp only; ring)
    rw [hs1]
    exact allclose3_refl u1

/-- C8: the alignment rotation.  `AlignmentRotation(v, v)` is the identity
matrix for every non-zero `v`; `AlignmentRotation(v, -v)` applied to `v`
gives exactly `-v` for every non-zero `v`; and for non-zero `v1, v2` in the
generic branch (normalized inputs `np.allclose` neither to each other nor to
each other's negation), the rotation maps the normalization of `v1` exactly
to the normalization of `v2`.  In exact real arithmetic the spec's `≈` are
equalities. -/
theorem C8_alignment_rotation :
    (∀ v : V3 ℝ, v ≠ 0 → rotation_matrix_from_vectors v v = M3R.id3) ∧
    (∀ v : V3 ℝ, v ≠ 0 → (rotation_matrix_from_vectors v (-v)).mulVec v = -v) ∧
    (∀ v1 v2 : V3 ℝ, v1 ≠ 0 → v2 ≠ 0 →
      ¬ allclose3 (v1.sdiv (normR v1)) (v2.sdiv (normR v2)) →
      ¬ allclose3 (v1.sdiv (normR v1)) (-(v2.sdiv (normR v2))) →
      (rotation_matrix_from_vectors v1 v2).mulVec (v1.sdiv (normR v1)) =
        v2.sdiv (normR v2)) := by
  refine ⟨?_, ?_, ?_⟩
  · intro v hv
    unfold rotation_matrix_from_vectors
    rw [if_pos (allclose3_refl _)]
  · intro v hv
    have hunit := unit_normSq v hv
    have hneg : normR (-v) = normR v := by
      unfold normR
      congr 1
      unfold V3.normSq
      simp only [V3.neg_def]
      try dsimp only
      ring
    have hv2 : (-v).sdiv (normR (-v)) = -(v.sdiv (normR v)) := by
      rw [hneg]
      unfold V3.sdiv
      simp only [V3.neg_def]
      rw [V3.ext_iff]
      refine ⟨?_, ?_, ?_⟩ <;> ((try dsimp only); ring)
    simp only [rotation_matrix_from_vectors]
    rw [hv2, V3.neg_neg_def, if_neg (not_allclose_neg_self _ hunit),
      if_pos (allclose3_refl _)]
    exact rot180_mulVec v _ _ _
  · intro v1 v2 hv1 hv2 hc1 hc2
    have hu1 := unit_normSq v1 hv1
    have hu2 := unit_normSq v2 hv2
    unfold rotation_matrix_from_vectors
    rw [if_neg hc1, if_neg hc2]
    exact rodrigues_maps _ _ hu1 hu2 (one_sub_dot_sq_ne _ _ hu1 hu2 hc1 hc2)

/-- C8, witness: the world X and Y axes. -/
theorem C8_witness :
    ((⟨1, 0, 0⟩ : V3 ℝ) ≠ 0 ∧
      rotation_matrix_from_vectors ⟨1, 0, 0⟩ ⟨1, 0, 0⟩ = M3R.id3) ∧
    ((rotation_matrix_from_vectors ⟨1, 0, 0⟩ (-⟨1, 0, 0⟩)).mulVec ⟨1, 0, 0⟩ =
      -(⟨1, 0, 0⟩ : V3 ℝ)) ∧
    ((⟨0, 1, 0⟩ : V3 ℝ) ≠ 0 ∧
      ¬ allclose3 ((⟨1, 0, 0⟩ : V3 ℝ).sdiv (normR ⟨1, 0, 0⟩))
        ((⟨0, 1, 0⟩ : V3 ℝ).sdiv (normR ⟨0, 1, 0⟩)) ∧
      ¬ allclose3 ((⟨1, 0, 0⟩ : V3 ℝ).sdiv (normR ⟨1, 0, 0⟩))
        (-((⟨0, 1, 0⟩ : V3 ℝ).sdiv (normR ⟨0, 1, 0⟩))) ∧
      (rotation_matrix_from_vectors ⟨1, 0, 0⟩ ⟨0, 1, 0⟩).mulVec
        ((⟨1, 0, 0⟩ : V3 ℝ).sdiv (normR ⟨1, 0, 0⟩)) =
        (⟨0, 1, 0⟩ : V3 ℝ).sdiv (normR ⟨0, 1, 0⟩)) := by
  have hne1 : (⟨1, 0, 0⟩ : V3 ℝ) ≠ 0 := fun h => one_ne_zero (congrArg V3.x h)
  have hne2 : (⟨0, 1, 0⟩ : V3 ℝ) ≠ 0 := fun h => one_ne_zero (congrArg V3.y h)
  have hn1 : normR (⟨1, 0, 0⟩ : V3 ℝ) = 1 := by
    unfold normR V3.normSq
    norm_num
  have hn2 : normR (⟨0, 1, 0⟩ : V3 ℝ) = 1 := by
    unfold normR V3.normSq
    norm_num
  have hd1 : (⟨1, 0, 0⟩ : V3 ℝ).sdiv (normR ⟨1, 0, 0⟩) = ⟨1, 0, 0⟩ := by
    rw [hn1]
    unfold V3.sdiv
    norm_num
  have hd2 : (⟨0, 1, 0⟩ : V3 ℝ).sdiv (normR ⟨0, 1, 0⟩) = ⟨0, 1, 0⟩ := by
    rw [hn2]
    unfold V3.sdiv
    norm_num
  have hna : ¬ allclose3 ((⟨1, 0, 0⟩ : V3 ℝ).sdiv (normR ⟨1, 0, 0⟩))
      ((⟨0, 1, 0⟩ : V3 ℝ).sdiv (normR ⟨0, 1, 0⟩)) := by
    rw [hd1, hd2]
    intro hc
    obtain ⟨ha, -, -⟩ := hc
    norm_num at ha
  have hnb : ¬ allclose3 ((⟨1, 0, 0⟩ : V3 ℝ).sdiv (normR ⟨1, 0, 0⟩))
      (-((⟨0, 1, 0⟩ : V3 ℝ).sdiv (normR ⟨0, 1, 0⟩))) := by
    rw [hd1, hd2]
    intro hc
    obtain ⟨ha, -, -⟩ := hc
    norm_num at ha
  exact ⟨⟨hne1, C8_alignment_rotation.1 ⟨1, 0, 0⟩ hne1⟩,
    C8_alignment_rotation.2.1 ⟨1, 0, 0⟩ hne1,
    ⟨hne2, hna, hnb,
      C8_alignment_rotation.2.2 ⟨1, 0, 0⟩ ⟨0, 1, 0⟩ hne1 hne2 hna hnb⟩⟩

/-- Normalization of a real 3-vector, `v / np.linalg.norm(v)`. -/
noncomputable def normalizeR (a : V3 ℝ) : V3 ℝ :=
  a.sdiv (normR a)

/-- Rational-to-real transfer of the squared norm. -/
theorem toR_normSq (a : V3 ℚ) : a.toR.normSq = ((a.normSq : ℚ) : ℝ) := by
  unfold V3.toR V3.normSq
  push_cast
  ring

/-- `(0,0,1)` is already normalized. -/
theorem normalizeR_unitZ : normalizeR ⟨0, 0, 1⟩ = ⟨0, 0, 1⟩ := by
  unfold normalizeR normR V3.normSq V3.sdiv
  norm_num

/-- Representation adequacy of the shaft direction: the property
`FrameData.shaft_direction` (literal translation of the source: divide by the
stored `shaft_length` when it exceeds `1e-6`, else `(0,0,1)`) is exactly the
normalization of the rational representative `sdDirQ`. -/
theorem shaft_direction_normalizes (fd : FrameData) :
    fd.shaft_direction = normalizeR fd.sdDirQ.toR := by
  unfold FrameData.shaft_direction FrameData.sdDirQ FrameData.shaft_length
  by_cases hc : fd.shaftComputed
  · simp only [hc, if_true, true_and]
    by_cases hbig : fd.shaft_vector.normSq > 1e-12
    · have hlen : normR fd.shaft_vector.toR > 1e-6 := by
        rw [normR, gt_iff_lt, Real.lt_sqrt (by norm_num), toR_normSq]
        calc ((1e-6 : ℝ)) ^ 2 = ((1e-12 : ℚ) : ℝ) := by norm_num
        _ < ((fd.shaft_vector.normSq : ℚ) : ℝ) := by exact_mod_cast hbig
      simp only [hbig, if_true, if_pos hlen]
      rfl
    · have hlen : ¬ (normR fd.shaft_vector.toR > 1e-6) := by
        rw [normR, gt_iff_lt, not_lt]
        have hle : ((fd.shaft_vector.normSq : ℚ) : ℝ) ≤ ((1e-12 : ℚ) : ℝ) := by
          exact_mod_cast not_lt.mp hbig
        calc Real.sqrt fd.shaft_vector.toR.normSq
            ≤ Real.sqrt ((1e-12 : ℚ) : ℝ) := by
              apply Real.sqrt_le_sqrt
              rw [toR_normSq]
              exact hle
        _ ≤ 1e-6 := by
              rw [show ((1e-12 : ℚ) : ℝ) = (1e-6 : ℝ) ^ 2 by norm_num]
              rw [Real.sqrt_sq (by norm_num)]
      simp only [hbig, if_false, if_neg hlen]
      exact normalizeR_unitZ.symm ▸ (by
        have htoR : (⟨0, 0, 1⟩ : V3 ℚ).toR = (⟨0, 0, 1⟩ : V3 ℝ) := by
          unfold V3.toR
          norm_num
        rw [htoR, normalizeR_unitZ])
  · have hc' : fd.shaftComputed = false := by simpa using hc
    simp only [hc', Bool.false_eq_true, if_false, false_and]
    rw [if_pos (by norm_num : (1 : ℝ) > 1e-6)]
    have hsv : fd.shaft_vector = ⟨0, 0, 1⟩ := by
      unfold FrameData.shaft_vector
      simp [hc']
    have htoR : (⟨0, 0, 1⟩ : V3 ℚ).toR = (⟨0, 0, 1⟩ : V3 ℝ) := by
      unfold V3.toR
      norm_num
    rw [hsv, htoR, normalizeR_unitZ]
    unfold V3.sdiv
    norm_num

theorem toR_sub (a b : V3 ℚ) : (a - b).toR = a.toR - b.toR := by
  unfold V3.toR
  simp only [V3.sub_def]
  push_cast
  rfl

theorem toR_cross (a b : V3 ℚ) : (V3.cross a b).toR = V3.cross a.toR b.toR := by
  unfold V3.toR V3.cross
  rw [V3.ext_iff]
  refine ⟨?_, ?_, ?_⟩ <;> (dsimp only; push_cast; ring)

theorem cross_sdiv_left (a b : V3 ℝ) (m : ℝ) :
    V3.cross (a.sdiv m) b = (V3.cross a b).sdiv m := by
  unfold V3.cross V3.sdiv
  rw [V3.ext_iff]
  refine ⟨?_, ?_, ?_⟩ <;> (dsimp only; ring)

theorem cross_sdiv_right (a b : V3 ℝ) (m : ℝ) :
    V3.cross a (b.sdiv m) = (V3.cross a b).sdiv m := by
  unfold V3.cross V3.sdiv
  rw [V3.ext_iff]
  refine ⟨?_, ?_, ?_⟩ <;> (dsimp only; ring)

theorem sdiv_sdiv (a : V3 ℝ) (m n : ℝ) : (a.sdiv m).sdiv n = a.sdiv (m * n) := by
  unfold V3.sdiv
  rw [V3.ext_iff]
  refine ⟨?_, ?_, ?_⟩ <;> (dsimp only; rw [div_div])

theorem normSq_sdiv (a : V3 ℝ) (m : ℝ) : (a.sdiv m).normSq = a.normSq / (m * m) := by
  unfold V3.sdiv V3.normSq
  dsimp only
  rw [div_mul_div_comm, div_mul_div_comm, div_mul_div_comm, div_add_div_same,
    div_add_div_same]

theorem normR_sdiv (a : V3 ℝ) (m : ℝ) (hm : 0 ≤ m) :
    normR (a.sdiv m) = normR a / m := by
  unfold normR
  rw [normSq_sdiv, Real.sqrt_div (normSq_nonneg a), Real.sqrt_mul_self hm]

theorem normalizeR_sdiv (a : V3 ℝ) (m : ℝ) (hm : 0 < m) :
    normalizeR (a.sdiv m) = normalizeR a := by
  unfold normalizeR
  rw [normR_sdiv a m (le_of_lt hm), sdiv_sdiv, mul_div_cancel₀ _ (ne_of_gt hm)]

/-- Threshold comparisons of a norm square-transfer to the squared norm. -/
theorem normR_gt_iff (x : V3 ℝ) (t : ℝ) (ht : 0 ≤ t) :
    normR x > t ↔ x.normSq > t * t := by
  rw [gt_iff_lt, normR, Real.lt_sqrt ht, sq]

theorem abs_lt_iff_sq_lt (a b : ℝ) (hb : 0 ≤ b) : |a| < b ↔ a * a < b * b := by
  constructor
  · intro h
    have h2 := mul_self_lt_mul_self (abs_nonneg a) h
    rwa [abs_mul_abs_self] at h2
  · intro h
    by_contra hc
    push_neg at hc
    have h2 := mul_self_le_mul_self hb hc
    rw [abs_mul_abs_self] at h2
    linarith

theorem normalizeR_unitX : normalizeR ⟨1, 0, 0⟩ = ⟨1, 0, 0⟩ := by
  unfold normalizeR normR V3.normSq V3.sdiv
  norm_num

/-- Representation adequacy of the fallback: on the unit direction
`w/‖w‖`, the literal real fallback equals the normalization of the rational
representative computed by `faceFallbackDir`. -/
theorem faceFallbackR_bridge (w : V3 ℚ) (hw : w.toR ≠ 0) :
    faceFallbackR (normalizeR w.toR) = normalizeR (faceFallbackDir w).toR := by
  have hn : 0 < normR w.toR := normR_pos _ hw
  have hnormcast : (w.toR).normSq = ((w.normSq : ℚ) : ℝ) := toR_normSq w
  have hsdz : (normalizeR w.toR).z = w.toR.z / normR w.toR := rfl
  have hcond1 : |(normalizeR w.toR).z| < 0.99 ↔ w.z * w.z < (99 / 100) ^ 2 * w.normSq := by
    rw [hsdz, abs_div, abs_of_pos hn, div_lt_iff hn,
      abs_lt_iff_sq_lt _ _ (by positivity)]
    have hl : w.toR.z * w.toR.z = ((w.z * w.z : ℚ) : ℝ) := by
      unfold V3.toR
      push_cast
      ring
    have hr : (0.99 * normR w.toR) * (0.99 * normR w.toR) =
        (((99 / 100) ^ 2 * w.normSq : ℚ) : ℝ) := by
      calc (0.99 * normR w.toR) * (0.99 * normR w.toR)
          = (0.99 * 0.99) * (normR w.toR * normR w.toR) := by ring
      _ = (0.99 * 0.99) * ((w.normSq : ℚ) : ℝ) := by rw [normR_mul_self, hnormcast]
      _ = (((99 / 100) ^ 2 * w.normSq : ℚ) : ℝ) := by push_cast; norm_num
    rw [hl, hr]
    exact Rat.cast_lt
  have hfb : (⟨-(normalizeR w.toR).y, (normalizeR w.toR).x, 0⟩ : V3 ℝ) =
      (⟨-w.toR.y, w.toR.x, 0⟩ : V3 ℝ).sdiv (normR w.toR) := by
    unfold normalizeR V3.sdiv
    rw [V3.ext_iff]
    refine ⟨?_, ?_, ?_⟩ <;> simp [neg_div]
  have hcond2 : normR ⟨-(normalizeR w.toR).y, (normalizeR w.toR).x, 0⟩ > 1e-6 ↔
      w.y * w.y + w.x * w.x > 1e-12 * w.normSq := by
    rw [hfb, normR_sdiv _ _ (le_of_lt hn), gt_iff_lt, lt_div_iff hn,
      ← gt_iff_lt, normR_gt_iff _ _ (by positivity)]
    have hl : (⟨-w.toR.y, w.toR.x, 0⟩ : V3 ℝ).normSq = ((w.y * w.y + w.x * w.x : ℚ) : ℝ) := by
      unfold V3.normSq V3.toR
      dsimp only
      push_cast
      ring
    have hr : (1e-6 * normR w.toR) * (1e-6 * normR w.toR) =
        ((1e-12 * w.normSq : ℚ) : ℝ) := by
      calc (1e-6 * normR w.toR) * (1e-6 * normR w.toR)
          = (1e-6 * 1e-6) * (normR w.toR * normR w.toR) := by ring
      _ = (1e-6 * 1e-6) * ((w.normSq : ℚ) : ℝ) := by rw [normR_mul_self, hnormcast]
      _ = ((1e-12 * w.normSq : ℚ) : ℝ) := by push_cast; norm_num
    rw [hl, hr]
    exact Iff.symm (by exact_mod_cast Iff.rfl)
  by_cases hq1 : w.z * w.z < (99 / 100) ^ 2 * w.normSq
  · by_cases hq2 : w.y * w.y + w.x * w.x > 1e-12 * w.normSq
    · unfold faceFallbackR faceFallbackDir
      rw [if_pos (hcond1.mpr hq1), if_pos (hcond2.mpr hq2), if_pos hq1, if_pos hq2]
      have htoRfb : (⟨-w.y, w.x, 0⟩ : V3 ℚ).toR = (⟨-w.toR.y, w.toR.x, 0⟩ : V3 ℝ) := by
        unfold V3.toR
        rw [V3.ext_iff]
        refine ⟨?_, ?_, ?_⟩ <;> ((try dsimp only); (try push_cast); (try ring))
      rw [htoRfb]
      show normalizeR ⟨-(normalizeR w.toR).y, (normalizeR w.toR).x, 0⟩ = _
      rw [hfb, normalizeR_sdiv _ _ hn]
    · unfold faceFallbackR faceFallbackDir
      rw [if_pos (hcond1.mpr hq1), if_neg (fun hx => hq2 (hcond2.mp hx)), if_pos hq1,
        if_neg hq2]
      have htoR1 : (⟨1, 0, 0⟩ : V3 ℚ).toR = (⟨1, 0, 0⟩ : V3 ℝ) := by
        unfold V3.toR
        norm_num
      rw [htoR1, normalizeR_unitX]
  · unfold faceFallbackR faceFallbackDir
    rw [if_neg (fun hx => hq1 (hcond1.mp hx)), if_neg hq1]
    have htoR1 : (⟨1, 0, 0⟩ : V3 ℚ).toR = (⟨1, 0, 0⟩ : V3 ℝ) := by
      unfold V3.toR
      norm_num
    rw [htoR1, normalizeR_unitX]


/-- Representation adequacy of the face-normal routine: running the literal
real-arithmetic translation of `_calculate_face_normal_jit` on the unit
shaft direction `w/‖w‖` gives exactly the normalization of the rational
representative computed by `faceNormalDir`.  This certifies every
squared-threshold reformulation in `faceNormalDir`/`faceFallbackDir`. -/
theorem calculateFaceNormalJit_bridge (cur prev w : V3 ℚ) (hw : w.toR ≠ 0) :
    calculateFaceNormalJitR cur.toR prev.toR (normalizeR w.toR) =
      normalizeR (faceNormalDir cur prev w).toR := by
  have hn : 0 < normR w.toR := normR_pos _ hw
  have hwc : (w.toR).normSq = ((w.normSq : ℚ) : ℝ) := toR_normSq w
  have hVsub : cur.toR - prev.toR = (cur - prev).toR := (toR_sub cur prev).symm
  have hVc : ((cur - prev).toR).normSq = (((cur - prev).normSq : ℚ) : ℝ) := toR_normSq _
  have hcond1 : normR ((cur - prev).toR) > 1e-4 ↔ (cur - prev).normSq > 1e-8 := by
    rw [normR_gt_iff _ _ (by norm_num), hVc,
      show ((1e-4 : ℝ) * 1e-4) = ((1e-8 : ℚ) : ℝ) by norm_num]
    exact Rat.cast_lt
  by_cases hq1 : (cur - prev).normSq > 1e-8
  · have hvm : 0 < normR ((cur - prev).toR) :=
      lt_trans (by norm_num) (hcond1.mpr hq1)
    have hcrossEq : V3.cross (normalizeR w.toR) (((cur - prev).toR).sdiv
        (normR ((cur - prev).toR))) =
        (V3.cross w.toR ((cur - prev).toR)).sdiv
          (normR ((cur - prev).toR) * normR w.toR) := by
      unfold normalizeR V3.cross V3.sdiv
      rw [V3.ext_iff]
      refine ⟨?_, ?_, ?_⟩ <;> ((try dsimp only); ring)
    have hcond2 : normR ((V3.cross w.toR ((cur - prev).toR)).sdiv
        (normR ((cur - prev).toR) * normR w.toR)) > 1e-6 ↔
        (V3.cross w (cur - prev)).normSq > 1e-12 * w.normSq * (cur - prev).normSq := by
      rw [normR_sdiv _ _ (by positivity), gt_iff_lt, lt_div_iff₀ (by positivity),
        ← gt_iff_lt, normR_gt_iff _ _ (by positivity)]
      have hl : (V3.cross w.toR ((cur - prev).toR)).normSq =
          (((V3.cross w (cur - prev)).normSq : ℚ) : ℝ) := by
        rw [← toR_cross, toR_normSq]
      have hr : (1e-6 * (normR ((cur - prev).toR) * normR w.toR)) *
          (1e-6 * (normR ((cur - prev).toR) * normR w.toR)) =
          ((1e-12 * w.normSq * (cur - prev).normSq : ℚ) : ℝ) := by
        calc (1e-6 * (normR ((cur - prev).toR) * normR w.toR)) *
            (1e-6 * (normR ((cur - prev).toR) * normR w.toR))
            = (1e-6 * 1e-6) * ((normR w.toR * normR w.toR) *
              (normR ((cur - prev).toR) * normR ((cur - prev).toR))) := by ring
        _ = (1e-6 * 1e-6) * (((w.normSq : ℚ) : ℝ) * (((cur - prev).normSq : ℚ) : ℝ)) := by
              rw [normR_mul_self, normR_mul_self, hwc, hVc]
        _ = ((1e-12 * w.normSq * (cur - prev).normSq : ℚ) : ℝ) := by
              push_cast
              norm_num
              ring
      rw [hl, hr]
      exact Rat.cast_lt
    have hfntEq : V3.cross (V3.cross (((cur - prev).toR).sdiv
        (normR ((cur - prev).toR))) (normalizeR w.toR)) (normalizeR w.toR) =
        (V3.cross (V3.cross ((cur - prev).toR) w.toR) w.toR).sdiv
          ((normR ((cur - prev).toR) * normR w.toR) * normR w.toR) := by
      unfold normalizeR V3.cross V3.sdiv
      rw [V3.ext_iff]
      refine ⟨?_, ?_, ?_⟩ <;> ((try dsimp only); ring)
    have hcond3 : normR ((V3.cross (V3.cross ((cur - prev).toR) w.toR) w.toR).sdiv
        ((normR ((cur - prev).toR) * normR w.toR) * normR w.toR)) > 1e-6 ↔
        (V3.cross (V3.cross (cur - prev) w) w).normSq >
          1e-12 * (cur - prev).normSq * (w.normSq * w.normSq) := by
      rw [normR_sdiv _ _ (by positivity), gt_iff_lt, lt_div_iff₀ (by positivity),
        ← gt_iff_lt, normR_gt_iff _ _ (by positivity)]
      have hl : (V3.cross (V3.cross ((cur - prev).toR) w.toR) w.toR).normSq =
          (((V3.cross (V3.cross (cur - prev) w) w).normSq : ℚ) : ℝ) := by
        rw [← toR_cross, ← toR_cross, toR_normSq]
      have hr : (1e-6 * ((normR ((cur - prev).toR) * normR w.toR) * normR w.toR)) *
          (1e-6 * ((normR ((cur - prev).toR) * normR w.toR) * normR w.toR)) =
          ((1e-12 * (cur - prev).normSq * (w.normSq * w.normSq) : ℚ) : ℝ) := by
        calc (1e-6 * ((normR ((cur - prev).toR) * normR w.toR) * normR w.toR)) *
            (1e-6 * ((normR ((cur - prev).toR) * normR w.toR) * normR w.toR))
            = (1e-6 * 1e-6) * ((normR ((cur - prev).toR) * normR ((cur - prev).toR)) *
              ((normR w.toR * normR w.toR) * (normR w.toR * normR w.toR))) := by ring
        _ = (1e-6 * 1e-6) * ((((cur - prev).normSq : ℚ) : ℝ) *
              (((w.normSq : ℚ) : ℝ) * ((w.normSq : ℚ) : ℝ))) := by
              rw [normR_mul_self, normR_mul_self, hwc, hVc]
        _ = ((1e-12 * (cur - prev).normSq * (w.normSq * w.normSq) : ℚ) : ℝ) := by
              push_cast
              norm_num
              ring
      rw [hl, hr]
      exact Rat.cast_lt
    unfold calculateFaceNormalJitR faceNormalDir
    dsimp only
    rw [hVsub, if_pos (hcond1.mpr hq1), if_pos hq1, hcrossEq]
    by_cases hq2 : (V3.cross w (cur - prev)).normSq > 1e-12 * w.normSq * (cur - prev).normSq
    · rw [if_pos (hcond2.mpr hq2), if_pos hq2, hfntEq]
      by_cases hq3 : (V3.cross (V3.cross (cur - prev) w) w).normSq >
          1e-12 * (cur - prev).normSq * (w.normSq * w.normSq)
      · rw [if_pos (hcond3.mpr hq3), if_pos hq3]
        have hd : (0 : ℝ) < (normR ((cur - prev).toR) * normR w.toR) * normR w.toR := by
          positivity
        rw [toR_cross, toR_cross]
        exact normalizeR_sdiv _ _ hd
      · rw [if_neg (fun hx => hq3 (hcond3.mp hx)), if_neg hq3]
        exact faceFallbackR_bridge w hw
    · rw [if_neg (fun hx => hq2 (hcond2.mp hx)), if_neg hq2]
      exact faceFallbackR_bridge w hw
  · unfold calculateFaceNormalJitR faceNormalDir
    dsimp only
    rw [hVsub, if_neg (fun hx => hq1 (hcond1.mp hx)), if_neg hq1]
    exact faceFallbackR_bridge w hw
